import Mathlib

/-!
Verification of the ORANSim event-scheduling / message-routing core.

This file gives a shallow embedding, in Lean 4, of the parts of the ORANSim
source that the specification's claims are about:

* `ORANScheduler` (src/oransim/simulation/scheduler.py), which delegates to
  SimPy.  The SimPy event loop is modelled from SimPy's documented semantics,
  since SimPy is an external dependency: the environment keeps a priority
  queue of entries keyed by `(time, priority, event_id)` (the heap orders
  lexicographically; `event_id` is a fresh increasing counter, so keys are
  distinct and heap order equals sorted order), `env.process(gen)` schedules a
  process-initialization entry at the current time with priority URGENT = 0,
  running the generator up to its first `yield env.timeout(delay)`, which
  schedules a resume entry at `now + delay` with priority NORMAL = 1, and
  `env.run(until=T)` schedules a stop entry at time `T` with priority URGENT
  and processes entries in key order, setting the clock to each entry's time,
  until the stop entry is reached (so entries scheduled at exactly `T` with
  priority NORMAL are not processed).  Times are modelled by `ℚ` (exact
  arithmetic in place of floats).
* `E2Interface` (src/oransim/interfaces/e2.py): publish/subscribe delivery.
* `X2Interface` / `XnInterface` (src/oransim/interfaces/x2.py, xn.py):
  point-to-point routing over a node registry.
* `NearRTRIC` / `NonRTRIC` (src/oransim/core/ric.py): policy storage,
  enforcement and creation.
* `RandomWaypointModel` and `UE` attachment (src/oransim/core/mobility.py).

Python dicts are modelled as insertion-ordered association lists with unique
keys; dict assignment replaces the value in place for an existing key and
appends otherwise; `del` removes the entry; iterating `.items()` follows
CPython's semantics, where mutating the dict's size during iteration makes
the next step of the iteration raise `RuntimeError`.

Callbacks are embedded as data describing their observable behaviour
(schedule-time traces, delivered-message lists, error logs); exceptions are
embedded as `Except` / explicit error flags.
-/

/-! # Scheduler model (src/oransim/simulation/scheduler.py + SimPy event loop) -/

/- Batteries marks rational arithmetic `@[irreducible]`; re-allow unfolding so
that concrete runs of the models below evaluate under `decide`. -/
attribute [local semireducible] Rat.add Rat.mul Rat.sub Rat.inv

/-- SimPy URGENT priority (used for process-initialization and `until` stop
entries). -/
def URGENT : Nat := 0

/-- SimPy NORMAL priority (used for `timeout` resume entries). -/
def NORMAL : Nat := 1

/-- The kinds of entries that `ORANScheduler.add_event` / `run` put into the
SimPy event queue.  `procInit idx` is the initialization event of the
`event_wrapper` process created by the `idx`-th `add_event` call; `timeoutEv
idx` is the resume of that wrapper after `yield self.env.timeout(delay)`,
whose continuation invokes the callback inside `try/except`; `untilEv` is the
stop event scheduled by `env.run(until=...)`. -/
inductive EvKind where
  | procInit (idx : Nat)
  | timeoutEv (idx : Nat)
  | untilEv
deriving Repr, DecidableEq

/-- One entry of the SimPy event heap: `(time, priority, event_id)` key plus
the event itself. -/
structure SchedEntry where
  time : ℚ
  prio : Nat
  eid : Nat
  kind : EvKind
deriving Repr, DecidableEq

/-- Lexicographic order on heap keys `(time, priority, event_id)`; SimPy's
heap pops the least entry.  Since every scheduled entry receives a fresh
`event_id`, keys are distinct and this non-strict order determines the pop
order uniquely. -/
def SchedEntry.keyLE (a b : SchedEntry) : Prop :=
  a.time < b.time ∨
    (a.time = b.time ∧ (a.prio < b.prio ∨ (a.prio = b.prio ∧ a.eid ≤ b.eid)))

instance : DecidableRel SchedEntry.keyLE := fun a b =>
  inferInstanceAs (Decidable (a.time < b.time ∨
    (a.time = b.time ∧ (a.prio < b.prio ∨ (a.prio = b.prio ∧ a.eid ≤ b.eid)))))

instance : IsTotal SchedEntry SchedEntry.keyLE where
  total a b := by
    unfold SchedEntry.keyLE
    rcases lt_trichotomy a.time b.time with h | h | h
    · exact Or.inl (Or.inl h)
    · rcases Nat.lt_trichotomy a.prio b.prio with h2 | h2 | h2
      · exact Or.inl (Or.inr ⟨h, Or.inl h2⟩)
      · rcases Nat.le_total a.eid b.eid with h3 | h3
        · exact Or.inl (Or.inr ⟨h, Or.inr ⟨h2, h3⟩⟩)
        · exact Or.inr (Or.inr ⟨h.symm, Or.inr ⟨h2.symm, h3⟩⟩)
      · exact Or.inr (Or.inr ⟨h.symm, Or.inl h2⟩)
    · exact Or.inr (Or.inl h)

instance : IsTrans SchedEntry SchedEntry.keyLE where
  trans a b c hab hbc := by
    unfold SchedEntry.keyLE at *
    rcases hab with h1 | ⟨e1, h1⟩
    · rcases hbc with h2 | ⟨e2, h2⟩
      · exact Or.inl (h1.trans h2)
      · exact Or.inl (e2 ▸ h1)
    · rcases hbc with h2 | ⟨e2, h2⟩
      · exact Or.inl (e1 ▸ h2)
      · refine Or.inr ⟨e1.trans e2, ?_⟩
        rcases h1 with p1 | ⟨q1, r1⟩
        · rcases h2 with p2 | ⟨q2, _⟩
          · exact Or.inl (p1.trans p2)
          · exact Or.inl (q2 ▸ p1)
        · rcases h2 with p2 | ⟨q2, r2⟩
          · exact Or.inl (q1 ▸ p2)
          · exact Or.inr ⟨q1.trans q2, r1.trans r2⟩

/-- Insert an entry into the event queue, kept as a list sorted by
`SchedEntry.keyLE`; with distinct `event_id`s this is extensionally the
behaviour of SimPy's `heappush` (pop order = sorted order). -/
def qInsert (e : SchedEntry) (q : List SchedEntry) : List SchedEntry :=
  List.orderedInsert SchedEntry.keyLE e q

/-- State of `ORANScheduler` together with its SimPy environment:
the clock `now`, the pending event queue, the fresh-`event_id` counter, the
list of callback invocations made so far (`trace`, by `add_event` call
index), and the list of callback errors caught and logged by
`event_wrapper`'s `except` clause (`errors`). -/
structure ORANScheduler where
  now : ℚ
  queue : List SchedEntry
  nextEid : Nat
  trace : List Nat
  errors : List Nat
deriving Repr, DecidableEq

/-- The fresh scheduler (`ORANScheduler.__init__`: `simpy.Environment()`,
clock 0, nothing scheduled). -/
def ORANScheduler.init : ORANScheduler :=
  { now := 0, queue := [], nextEid := 0, trace := [], errors := [] }

/-- Behaviour table for the callbacks passed to `add_event`: the `idx`-th
call passed delay `(evs.getD idx _).1`, and its callback raises an exception
when invoked iff `(evs.getD idx _).2` is `true` (the exception is caught by
`event_wrapper` and logged). -/
abbrev CallTable := List (ℚ × Bool)

/-- `ORANScheduler.add_event(delay, callback)`: raises `ValueError` for a
negative delay before anything is scheduled; otherwise
`env.process(event_wrapper())` schedules the wrapper's initialization entry
at the current time with priority URGENT and a fresh event id. -/
def ORANScheduler.add_event (s : ORANScheduler) (delay : ℚ) (idx : Nat) :
    Except String ORANScheduler :=
  if delay < 0 then .error "Delay time cannot be negative"
  else .ok { s with
    queue := qInsert ⟨s.now, URGENT, s.nextEid, .procInit idx⟩ s.queue,
    nextEid := s.nextEid + 1 }

/-- The SimPy event loop (`env.run` stepping), fuel-indexed so that it is
structurally recursive; a fuel of `2 * queue.length + 1` is enough because a
`procInit` pop adds one `timeoutEv` entry and every other pop shrinks the
queue.  Popping an entry advances the clock to its time.  A `procInit idx`
pop runs `event_wrapper` to its `yield`, scheduling the timeout resume at
`now + delay` with priority NORMAL and a fresh event id.  A `timeoutEv idx`
pop invokes the callback inside `try/except`: the invocation is recorded in
`trace`, and in `errors` as well when the callback raises (the exception is
logged, not propagated).  The `untilEv` pop stops the loop
(`StopSimulation`). An empty queue also stops the loop (`EmptySchedule`). -/
def ORANScheduler.runLoop (evs : CallTable) :
    Nat → ORANScheduler → ORANScheduler
  | 0, s => s
  | fuel + 1, s =>
    match s.queue with
    | [] => s
    | e :: rest =>
      match e.kind with
      | .untilEv => { s with now := e.time, queue := rest }
      | .procInit idx =>
        ORANScheduler.runLoop evs fuel
          { s with
            now := e.time,
            queue := qInsert
              ⟨e.time + (evs.getD idx (0, false)).1, NORMAL, s.nextEid,
                .timeoutEv idx⟩ rest,
            nextEid := s.nextEid + 1 }
      | .timeoutEv idx =>
        ORANScheduler.runLoop evs fuel
          { s with
            now := e.time,
            queue := rest,
            trace := s.trace ++ [idx],
            errors :=
              if (evs.getD idx (0, false)).2 then s.errors ++ [idx]
              else s.errors }

/-- `ORANScheduler.run(until)`: raises `ValueError` when `until` is not
strictly greater than the current clock; otherwise schedules the stop entry
at `until` with priority URGENT and a fresh event id and runs the event
loop. -/
def ORANScheduler.run (evs : CallTable) (s : ORANScheduler) (untilT : ℚ) :
    Except String ORANScheduler :=
  if untilT ≤ s.now then
    .error "'until' value must be greater than current simulation time"
  else
    .ok (ORANScheduler.runLoop evs (2 * s.queue.length + 3)
      { s with
        queue := qInsert ⟨untilT, URGENT, s.nextEid, .untilEv⟩ s.queue,
        nextEid := s.nextEid + 1 })

/-- Perform the sequence of `add_event` calls described by a call table,
numbering the calls from `i`; a `ValueError` from a negative delay aborts the
sequence (it propagates to the driving code). -/
def scheduleList : CallTable → Nat → ORANScheduler → Except String ORANScheduler
  | [], _, s => .ok s
  | e :: rest, i, s =>
    match s.add_event e.1 i with
    | .error m => .error m
    | .ok s' => scheduleList rest (i + 1) s'

/-- The claim scenario: starting from a fresh scheduler, perform all the
`add_event` calls of the table, then call `run(until=T)`. -/
def scheduleAndRun (evs : CallTable) (T : ℚ) : Except String ORANScheduler :=
  match scheduleList evs 0 ORANScheduler.init with
  | .error m => .error m
  | .ok s => s.run evs T

/-! ## Scheduler helper definitions and lemmas -/

/-- The delay passed by the `i`-th `add_event` call. -/
def delayOf (evs : CallTable) (i : Nat) : ℚ := (evs.getD i (0, false)).1

/-- Whether the callback of the `i`-th `add_event` call raises when invoked. -/
def failsOf (evs : CallTable) (i : Nat) : Bool := (evs.getD i (0, false)).2

/-- The process-initialization entry created by the `i`-th `add_event` call
made at clock 0 (fresh scheduler: its event id is `i`). -/
def mkInit (i : Nat) : SchedEntry := ⟨0, URGENT, i, .procInit i⟩

/-- The initialization entries of the first `n` `add_event` calls, in call
order. -/
def initsRange (n : Nat) : List SchedEntry := (List.range n).map mkInit

/-- The timeout entry that the wrapper of call `j` schedules when its
initialization entry is popped at clock 0 and the fresh event id is `eid`. -/
def mkTimeout (evs : CallTable) (j eid : Nat) : SchedEntry :=
  ⟨delayOf evs j, NORMAL, eid, .timeoutEv j⟩

/-- Queue contents produced by popping the initialization entries of the
calls `js` in order, starting from fresh event id `eid`: each pop inserts the
corresponding timeout entry. -/
def insertTimeouts (evs : CallTable) : List Nat → Nat → List SchedEntry → List SchedEntry
  | [], _, q => q
  | j :: rest, eid, q =>
    insertTimeouts evs rest (eid + 1) (qInsert (mkTimeout evs j eid) q)

/-- The multiset of timeout entries produced for the calls `js` starting at
event id `eid`, in call order. -/
def timeoutEntries (evs : CallTable) : List Nat → Nat → List SchedEntry
  | [], _ => []
  | j :: rest, eid => mkTimeout evs j eid :: timeoutEntries evs rest (eid + 1)

/-- The call index an entry belongs to. -/
def SchedEntry.callIdx : SchedEntry → Nat
  | ⟨_, _, _, .procInit i⟩ => i
  | ⟨_, _, _, .timeoutEv i⟩ => i
  | ⟨_, _, _, .untilEv⟩ => 0

theorem qInsert_append (e : SchedEntry) (l1 l2 : List SchedEntry)
    (h : ∀ x ∈ l1, ¬ SchedEntry.keyLE e x) :
    qInsert e (l1 ++ l2) = l1 ++ qInsert e l2 := by
  induction l1 with
  | nil => simp
  | cons a t ih =>
    simp only [qInsert, List.cons_append, List.orderedInsert]
    rw [if_neg (h a (by simp))]
    simpa using ih (fun x hx => h x (by simp [hx]))

theorem qInsert_last (e : SchedEntry) (l : List SchedEntry)
    (h : ∀ x ∈ l, ¬ SchedEntry.keyLE e x) :
    qInsert e l = l ++ [e] := by
  have := qInsert_append e l [] h
  simpa using this

theorem scheduleList_spec :
    ∀ (l : CallTable) (i : Nat), (∀ p ∈ l, 0 ≤ p.1) →
      scheduleList l i ⟨0, initsRange i, i, [], []⟩ =
        .ok ⟨0, initsRange (i + l.length), i + l.length, [], []⟩ := by
  intro l
  induction l with
  | nil => intro i _; simp [scheduleList]
  | cons p rest ih =>
    intro i hpos
    have hp : ¬ p.1 < 0 := not_lt.2 (hpos p (by simp))
    have hq : qInsert ⟨0, URGENT, i, .procInit i⟩ (initsRange i) =
        initsRange i ++ [mkInit i] := by
      apply qInsert_last
      intro x hx
      simp only [initsRange, List.mem_map, List.mem_range] at hx
      obtain ⟨j, hj, rfl⟩ := hx
      simp only [SchedEntry.keyLE, mkInit, URGENT]
      push_neg
      refine ⟨le_refl _, fun _ => ⟨le_refl _, fun _ => ?_⟩⟩
      omega
    have hrange : initsRange i ++ [mkInit i] = initsRange (i + 1) := by
      simp [initsRange, List.range_succ]
    simp only [scheduleList, ORANScheduler.add_event, if_neg hp]
    rw [hq, hrange]
    have := ih (i + 1) (fun q hq' => hpos q (by simp [hq']))
    rw [this]
    have harith : i + 1 + rest.length = i + (rest.length + 1) := by omega
    rw [harith]
    simp

theorem runLoop_initPhase (evs : CallTable) :
    ∀ (js : List Nat) (q : List SchedEntry) (eid : Nat) (tr er : List Nat)
      (fuel : Nat), (∀ j ∈ js, 0 ≤ delayOf evs j) →
      ORANScheduler.runLoop evs (js.length + fuel)
          ⟨0, js.map mkInit ++ q, eid, tr, er⟩ =
        ORANScheduler.runLoop evs fuel
          ⟨0, insertTimeouts evs js eid q, eid + js.length, tr, er⟩ := by
  intro js
  induction js with
  | nil => intro q eid tr er fuel _; simp [insertTimeouts]
  | cons j rest ih =>
    intro q eid tr er fuel hpos
    have hd : 0 ≤ delayOf evs j := hpos j (by simp)
    simp only [List.map_cons, List.cons_append, List.length_cons]
    have hstep : ORANScheduler.runLoop evs (rest.length + 1 + fuel)
        ⟨0, mkInit j :: (rest.map mkInit ++ q), eid, tr, er⟩ =
        ORANScheduler.runLoop evs (rest.length + fuel)
          ⟨0, qInsert ⟨0 + delayOf evs j, NORMAL, eid, .timeoutEv j⟩
              (rest.map mkInit ++ q), eid + 1, tr, er⟩ := by
      have : rest.length + 1 + fuel = (rest.length + fuel) + 1 := by omega
      rw [this]
      rfl
    rw [hstep]
    have hins : qInsert ⟨0 + delayOf evs j, NORMAL, eid, .timeoutEv j⟩
        (rest.map mkInit ++ q) =
        rest.map mkInit ++ qInsert (mkTimeout evs j eid) q := by
      rw [zero_add]
      apply qInsert_append
      intro x hx
      simp only [List.mem_map] at hx
      obtain ⟨k, _, rfl⟩ := hx
      simp only [SchedEntry.keyLE, mkInit, mkTimeout, NORMAL, URGENT]
      push_neg
      refine ⟨hd, fun h0 => ⟨by omega, fun h1 => ?_⟩⟩
      omega
    rw [hins, ih (qInsert (mkTimeout evs j eid) q) (eid + 1) tr er fuel
      (fun x hx => hpos x (by simp [hx]))]
    simp only [insertTimeouts]
    congr 2
    omega

theorem runLoop_popPhase (evs : CallTable) :
    ∀ (A : List SchedEntry) (stopE : SchedEntry) (B : List SchedEntry)
      (now0 : ℚ) (eid : Nat) (tr er : List Nat) (fuel : Nat),
      (∀ a ∈ A, ∃ j, a.kind = .timeoutEv j) → stopE.kind = .untilEv →
      ORANScheduler.runLoop evs (A.length + (fuel + 1))
          ⟨now0, A ++ stopE :: B, eid, tr, er⟩ =
        ⟨stopE.time, B, eid, tr ++ A.map SchedEntry.callIdx,
          er ++ (A.filter fun a => failsOf evs a.callIdx).map
            SchedEntry.callIdx⟩ := by
  intro A
  induction A with
  | nil =>
    intro stopE B now0 eid tr er fuel _ hstop
    obtain ⟨st, sp, se, sk⟩ := stopE
    simp only [SchedEntry.kind] at hstop
    subst hstop
    simp [ORANScheduler.runLoop]
  | cons a rest ih =>
    intro stopE B now0 eid tr er fuel hA hstop
    obtain ⟨j, hj⟩ := hA a (by simp)
    obtain ⟨at_, ap, ae, ak⟩ := a
    simp only [SchedEntry.kind] at hj
    subst hj
    have harith : (⟨at_, ap, ae, .timeoutEv j⟩ :: rest : List SchedEntry).length
        + (fuel + 1) = (rest.length + (fuel + 1)) + 1 := by
      simp; omega
    rw [harith]
    show ORANScheduler.runLoop evs (rest.length + (fuel + 1))
        ⟨at_, rest ++ stopE :: B, eid, tr ++ [j],
          if failsOf evs j then er ++ [j] else er⟩ = _
    rw [ih stopE B at_ eid (tr ++ [j])
      (if failsOf evs j then er ++ [j] else er) fuel
      (fun x hx => hA x (by simp [hx])) hstop]
    have hidx : SchedEntry.callIdx ⟨at_, ap, ae, .timeoutEv j⟩ = j := rfl
    by_cases hf : failsOf evs j <;>
      simp [hf, List.filter_cons, hidx, List.append_assoc]

theorem insertTimeouts_sorted (evs : CallTable) :
    ∀ (js : List Nat) (eid : Nat) (q : List SchedEntry),
      List.Sorted SchedEntry.keyLE q →
      List.Sorted SchedEntry.keyLE (insertTimeouts evs js eid q) := by
  intro js
  induction js with
  | nil => intro eid q h; exact h
  | cons j rest ih =>
    intro eid q h
    exact ih (eid + 1) _ (h.orderedInsert _ _)

theorem insertTimeouts_perm (evs : CallTable) :
    ∀ (js : List Nat) (eid : Nat) (q : List SchedEntry),
      (insertTimeouts evs js eid q).Perm (timeoutEntries evs js eid ++ q) := by
  intro js
  induction js with
  | nil => intro eid q; simp [insertTimeouts, timeoutEntries]
  | cons j rest ih =>
    intro eid q
    have h1 := ih (eid + 1) (qInsert (mkTimeout evs j eid) q)
    have h2 : (qInsert (mkTimeout evs j eid) q).Perm
        (mkTimeout evs j eid :: q) := List.perm_orderedInsert _ _ _
    show (insertTimeouts evs rest (eid + 1)
      (qInsert (mkTimeout evs j eid) q)).Perm
      (mkTimeout evs j eid :: timeoutEntries evs rest (eid + 1) ++ q)
    exact (h1.trans ((h2.append_left _).trans List.perm_middle))

theorem timeoutEntries_append (evs : CallTable) :
    ∀ (js : List Nat) (j eid : Nat),
      timeoutEntries evs (js ++ [j]) eid =
        timeoutEntries evs js eid ++ [mkTimeout evs j (eid + js.length)] := by
  intro js
  induction js with
  | nil => intro j eid; simp [timeoutEntries]
  | cons k rest ih =>
    intro j eid
    simp only [List.cons_append, timeoutEntries, List.append_eq,
      List.length_cons]
    rw [ih j (eid + 1)]
    have harith2 : eid + 1 + rest.length = eid + (rest.length + 1) := by omega
    rw [harith2]

theorem timeoutEntries_range (evs : CallTable) :
    ∀ (n eid : Nat),
      timeoutEntries evs (List.range n) eid =
        (List.range n).map (fun j => mkTimeout evs j (eid + j)) := by
  intro n
  induction n with
  | zero => intro eid; simp [timeoutEntries]
  | succ m ih =>
    intro eid
    rw [List.range_succ, timeoutEntries_append, ih eid]
    simp

theorem delayOf_nonneg (evs : CallTable) (hpos : ∀ p ∈ evs, 0 ≤ p.1)
    (j : Nat) : 0 ≤ delayOf evs j := by
  unfold delayOf
  by_cases h : j < evs.length
  · rw [List.getD_eq_getElem evs _ h]
    exact hpos _ (List.getElem_mem h)
  · rw [List.getD_eq_default evs _ (le_of_not_lt h)]

/-- Full characterization of the claim scenario `scheduleAndRun`: with
non-negative delays and a positive horizon the run succeeds, the final clock
is `T`, a callback is invoked exactly once iff its delay is strictly below
`T` (events scheduled at exactly `T` are cut off by SimPy's stop event,
which carries the smaller priority), invocations are ordered by fire time
with ties broken by call order, and the logged errors are exactly the
invocations of raising callbacks. -/
theorem scheduleAndRun_spec (evs : CallTable) (T : ℚ)
    (hpos : ∀ p ∈ evs, 0 ≤ p.1) (hT : 0 < T) :
    ∃ st : ORANScheduler,
      scheduleAndRun evs T = .ok st ∧
      st.now = T ∧
      (∀ i : Nat, st.trace.count i =
        if i < evs.length ∧ delayOf evs i < T then 1 else 0) ∧
      st.trace.Pairwise (fun i j =>
        delayOf evs i < delayOf evs j ∨
          (delayOf evs i = delayOf evs j ∧ i < j)) ∧
      st.errors = st.trace.filter (failsOf evs) := by
  classical
  set n := evs.length with hn
  have hsl : scheduleList evs 0 ORANScheduler.init =
      .ok ⟨0, initsRange n, n, [], []⟩ := by
    have h0 : ORANScheduler.init = ⟨0, initsRange 0, 0, [], []⟩ := by
      simp [ORANScheduler.init, initsRange]
    rw [h0, scheduleList_spec evs 0 hpos]
    simp
  set stopE : SchedEntry := ⟨T, URGENT, n, .untilEv⟩ with hstopE
  have hstopq : qInsert stopE (initsRange n) = initsRange n ++ [stopE] := by
    apply qInsert_last
    intro x hx
    simp only [initsRange, List.mem_map, List.mem_range] at hx
    obtain ⟨j, hj, rfl⟩ := hx
    simp only [SchedEntry.keyLE, mkInit, hstopE, URGENT]
    rintro (h | ⟨h0, _⟩)
    · linarith
    · linarith
  have hrun : scheduleAndRun evs T =
      .ok (ORANScheduler.runLoop evs (2 * n + 3)
        ⟨0, initsRange n ++ [stopE], n + 1, [], []⟩) := by
    unfold scheduleAndRun
    rw [hsl]
    show ORANScheduler.run evs ⟨0, initsRange n, n, [], []⟩ T = _
    unfold ORANScheduler.run
    rw [if_neg (not_le.2 hT)]
    rw [show (⟨0, initsRange n, n, [], []⟩ : ORANScheduler).queue.length = n by
      simp [initsRange]]
    rw [show qInsert ⟨T, URGENT,
        (⟨0, initsRange n, n, [], []⟩ : ORANScheduler).nextEid, .untilEv⟩
        (initsRange n) = initsRange n ++ [stopE] from hstopq]
  have hphaseA : ORANScheduler.runLoop evs (2 * n + 3)
      ⟨0, initsRange n ++ [stopE], n + 1, [], []⟩ =
      ORANScheduler.runLoop evs (n + 3)
        ⟨0, insertTimeouts evs (List.range n) (n + 1) [stopE],
          (n + 1) + n, [], []⟩ := by
    have hf : 2 * n + 3 = (List.range n).length + (n + 3) := by
      simp; omega
    rw [hf]
    have := runLoop_initPhase evs (List.range n) [stopE] (n + 1) [] [] (n + 3)
      (fun j _ => delayOf_nonneg evs hpos j)
    simpa [initsRange] using this
  set Q : List SchedEntry := insertTimeouts evs (List.range n) (n + 1) [stopE]
    with hQform
  have hsorted : List.Sorted SchedEntry.keyLE Q :=
    insertTimeouts_sorted evs _ _ _ (List.sorted_singleton _)
  have hperm : Q.Perm
      ((List.range n).map (fun j => mkTimeout evs j (n + 1 + j)) ++ [stopE]) := by
    have h1 := insertTimeouts_perm evs (List.range n) (n + 1) [stopE]
    rwa [timeoutEntries_range evs n (n + 1)] at h1
  have hstopmem : stopE ∈ Q := hperm.mem_iff.2 (by simp)
  obtain ⟨A, B, hQAB⟩ := List.append_of_mem hstopmem
  have hcount_until : Q.countP (fun e => e.kind == EvKind.untilEv) = 1 := by
    rw [hperm.countP_eq, List.countP_append]
    have h1 : ((List.range n).map fun j => mkTimeout evs j (n + 1 + j)).countP
        (fun e => e.kind == EvKind.untilEv) = 0 := by
      rw [List.countP_eq_zero]
      intro e he
      simp only [List.mem_map] at he
      obtain ⟨j, _, rfl⟩ := he
      simp [mkTimeout]
    rw [h1]
    simp [hstopE]
  have hAB_until : A.countP (fun e => e.kind == EvKind.untilEv) = 0 ∧
      B.countP (fun e => e.kind == EvKind.untilEv) = 0 := by
    have h1 := hcount_until
    rw [hQAB, List.countP_append, List.countP_cons] at h1
    simp only [hstopE] at h1
    simp at h1
    omega
  have hshape : ∀ e ∈ Q, e = stopE ∨
      ∃ j, j < n ∧ e = mkTimeout evs j (n + 1 + j) := by
    intro e he
    have h1 := hperm.mem_iff.1 he
    rw [List.mem_append] at h1
    rcases h1 with h | h
    · simp only [List.mem_map, List.mem_range] at h
      obtain ⟨j, hj, rfl⟩ := h
      exact Or.inr ⟨j, hj, rfl⟩
    · simp only [List.mem_singleton] at h
      exact Or.inl h
  have hAmem : ∀ a ∈ A, ∃ j, j < n ∧ a = mkTimeout evs j (n + 1 + j) := by
    intro a ha
    have haQ : a ∈ Q := by
      rw [hQAB]; exact List.mem_append_left _ ha
    rcases hshape a haQ with h | h
    · exfalso
      have h0 := hAB_until.1
      rw [List.countP_eq_zero] at h0
      exact h0 a ha (by simp [h, hstopE])
    · exact h
  have hBmem : ∀ b ∈ B, ∃ j, j < n ∧ b = mkTimeout evs j (n + 1 + j) := by
    intro b hb
    have hbQ : b ∈ Q := by
      rw [hQAB]
      exact List.mem_append_right _ (by simp [hb])
    rcases hshape b hbQ with h | h
    · exfalso
      have h0 := hAB_until.2
      rw [List.countP_eq_zero] at h0
      exact h0 b hb (by simp [h, hstopE])
    · exact h
  have hsortQ : List.Pairwise SchedEntry.keyLE (A ++ stopE :: B) := by
    rw [← hQAB]; exact hsorted
  have hA_le_stop : ∀ a ∈ A, SchedEntry.keyLE a stopE := by
    intro a ha
    exact (List.pairwise_append.1 hsortQ).2.2 a ha stopE (by simp)
  have hstop_le_B : ∀ b ∈ B, SchedEntry.keyLE stopE b := by
    have h1 := (List.pairwise_append.1 hsortQ).2.1
    rw [List.pairwise_cons] at h1
    exact fun b hb => h1.1 b hb
  have hAkinds : ∀ a ∈ A, ∃ j, a.kind = EvKind.timeoutEv j := by
    intro a ha
    obtain ⟨j, _, rfl⟩ := hAmem a ha
    exact ⟨j, rfl⟩
  have hlenA : A.length ≤ n := by
    have h1 : Q.length = n + 1 := by
      rw [hperm.length_eq]; simp
    rw [hQAB] at h1
    simp at h1
    omega
  have hfinal : ORANScheduler.runLoop evs (n + 3) ⟨0, Q, (n + 1) + n, [], []⟩ =
      ⟨stopE.time, B, (n + 1) + n, A.map SchedEntry.callIdx,
        (A.filter fun a => failsOf evs a.callIdx).map SchedEntry.callIdx⟩ := by
    have hf : n + 3 = A.length + ((n + 2 - A.length) + 1) := by omega
    rw [hQAB, hf]
    have h1 := runLoop_popPhase evs A stopE B 0 ((n + 1) + n) [] []
      (n + 2 - A.length) hAkinds (by rw [hstopE])
    simpa using h1
  have hAcount : ∀ i : Nat, A.countP (fun e => e.kind == EvKind.timeoutEv i) =
      if i < n ∧ delayOf evs i < T then 1 else 0 := by
    intro i
    have hkindcount : Q.countP (fun e => e.kind == EvKind.timeoutEv i) =
        if i < n then 1 else 0 := by
      rw [hperm.countP_eq, List.countP_append]
      have h2 : ([stopE].countP fun e => e.kind == EvKind.timeoutEv i) = 0 := by
        simp [hstopE]
      rw [h2, Nat.add_zero, List.countP_map]
      have h3 : ((List.range n).countP
          ((fun e => e.kind == EvKind.timeoutEv i) ∘
            (fun j => mkTimeout evs j (n + 1 + j)))) =
          (List.range n).countP (fun j => j == i) := by
        apply List.countP_congr
        intro j _
        simp [mkTimeout]
      rw [h3]
      have h4 : (List.range n).countP (fun j => j == i) =
          (List.range n).count i := rfl
      rw [h4]
      by_cases hin : i < n
      · rw [if_pos hin]
        exact List.count_eq_one_of_mem (List.nodup_range n)
          (List.mem_range.2 hin)
      · rw [if_neg hin]
        exact List.count_eq_zero_of_not_mem
          (fun hmem => hin (List.mem_range.1 hmem))
    have hsplit := hkindcount
    rw [hQAB, List.countP_append, List.countP_cons] at hsplit
    have h2 : (stopE.kind == EvKind.timeoutEv i) = false := by simp [hstopE]
    rw [h2] at hsplit
    norm_num at hsplit
    by_cases hin : i < n
    · by_cases hdT : delayOf evs i < T
      · have hB0 : B.countP (fun e => e.kind == EvKind.timeoutEv i) = 0 := by
          rw [List.countP_eq_zero]
          intro b hb hbp
          obtain ⟨j, hj, rfl⟩ := hBmem b hb
          have hji : j = i := by simpa [mkTimeout] using hbp
          subst hji
          have h3 := hstop_le_B _ hb
          simp only [SchedEntry.keyLE, mkTimeout, hstopE, URGENT, NORMAL] at h3
          rcases h3 with h | ⟨h0, _⟩
          · linarith
          · linarith
        rw [if_pos ⟨hin, hdT⟩]
        rw [if_pos hin] at hsplit
        omega
      · have hA0 : A.countP (fun e => e.kind == EvKind.timeoutEv i) = 0 := by
          rw [List.countP_eq_zero]
          intro a ha hap
          obtain ⟨j, hj, rfl⟩ := hAmem a ha
          have hji : j = i := by simpa [mkTimeout] using hap
          subst hji
          have h3 := hA_le_stop _ ha
          simp only [SchedEntry.keyLE, mkTimeout, hstopE, URGENT, NORMAL] at h3
          rcases h3 with h | ⟨h0, h1⟩
          · exact hdT h
          · rcases h1 with h1 | ⟨h1, _⟩ <;> omega
        rw [hA0, if_neg (by tauto)]
    · rw [if_neg hin] at hsplit
      rw [if_neg (by tauto)]
      omega
  have hpairA : List.Pairwise
      (fun a b : SchedEntry => SchedEntry.keyLE a b ∧ a.eid ≠ b.eid) A := by
    have hsub : List.Sublist A Q := by
      rw [hQAB]; exact List.sublist_append_left A (stopE :: B)
    have h1 : List.Pairwise SchedEntry.keyLE A := hsorted.sublist hsub
    have h2 : (Q.map SchedEntry.eid).Nodup := by
      have hpm : (Q.map SchedEntry.eid).Perm
          ((List.range n).map (fun j => n + 1 + j) ++ [n]) := by
        have h3 := hperm.map SchedEntry.eid
        simpa [mkTimeout, hstopE, List.map_map, Function.comp] using h3
      rw [hpm.nodup_iff]
      refine List.Nodup.append ?_ (by simp) ?_
      · exact (List.nodup_range n).map (fun a b h => by omega)
      · intro x hx hy
        simp only [List.mem_map, List.mem_range] at hx
        obtain ⟨j, _, rfl⟩ := hx
        simp at hy
        omega
    have h3 : (A.map SchedEntry.eid).Nodup := h2.sublist (hsub.map _)
    exact h1.and (List.pairwise_map.1 h3)
  refine ⟨⟨stopE.time, B, (n + 1) + n, A.map SchedEntry.callIdx,
      (A.filter fun a => failsOf evs a.callIdx).map SchedEntry.callIdx⟩,
    by rw [hrun, hphaseA, hfinal], by simp [hstopE], ?_, ?_, ?_⟩
  · intro i
    rw [← hAcount i]
    show (A.map SchedEntry.callIdx).countP (fun x => x == i) = _
    rw [List.countP_map]
    apply List.countP_congr
    intro a ha
    obtain ⟨j, hj, rfl⟩ := hAmem a ha
    simp [mkTimeout, SchedEntry.callIdx]
  · show (A.map SchedEntry.callIdx).Pairwise _
    rw [List.pairwise_map]
    refine hpairA.imp_of_mem ?_
    intro a b ha hb hr
    obtain ⟨i, hi, rfl⟩ := hAmem a ha
    obtain ⟨j, hj, rfl⟩ := hAmem b hb
    obtain ⟨hle, hneq⟩ := hr
    simp only [SchedEntry.keyLE, mkTimeout, NORMAL] at hle hneq
    show delayOf evs i < delayOf evs j ∨
      (delayOf evs i = delayOf evs j ∧ i < j)
    rcases hle with h | ⟨h0, h1⟩
    · exact Or.inl h
    · rcases h1 with h1 | ⟨_, h2⟩
      · omega
      · exact Or.inr ⟨h0, by omega⟩
  · show (A.filter fun a => failsOf evs a.callIdx).map SchedEntry.callIdx =
      (A.map SchedEntry.callIdx).filter (failsOf evs)
    have hcomp : (fun a : SchedEntry => failsOf evs a.callIdx) =
        (failsOf evs ∘ SchedEntry.callIdx) := rfl
    rw [hcomp, List.filter_map]

/-! ## Claim C1 -/

/-- C1 counterexample: the claim as stated is false at the input
`add_event(delay=1, cb); run(until=1)`.  The callback's scheduled fire time
is `0 + 1 = 1 ≤ T = 1`, so the claim requires it to be invoked exactly once;
but the run completes with final clock `1` and an empty invocation trace,
because SimPy's stop event at time `T` carries priority URGENT and is
processed before the NORMAL-priority timeout at the same time. -/
theorem run_until_boundary_event_not_fired :
    delayOf [((1 : ℚ), false)] 0 ≤ 1 ∧
    (scheduleAndRun [((1 : ℚ), false)] 1).toOption.map ORANScheduler.trace =
      some [] ∧
    (scheduleAndRun [((1 : ℚ), false)] 1).toOption.map ORANScheduler.now =
      some 1 := by
  decide

/-- C1 (amended: an event fires iff its fire time is strictly below `T`;
events scheduled at exactly `T` are not invoked): for every sequence of
`add_event(delay, callback)` calls with non-negative delays followed by
`run(until=T)` with `T > 0`, every callback whose fire time is `< T` is
invoked exactly once and no callback with fire time `≥ T` is invoked,
invocations occur in non-decreasing fire-time order with ties broken by
`add_event` call order, the final clock is exactly `T`, and the outcome is a
function of the call sequence alone, so two runs driven by an identical
schedule-call sequence produce identical invocation order and identical
final clock. -/
theorem scheduler_run_characterization (evs : CallTable) (T : ℚ)
    (hpos : ∀ p ∈ evs, 0 ≤ p.1) (hT : 0 < T) :
    ∃ st : ORANScheduler,
      scheduleAndRun evs T = .ok st ∧
      st.now = T ∧
      (∀ i : Nat, st.trace.count i =
        if i < evs.length ∧ delayOf evs i < T then 1 else 0) ∧
      st.trace.Pairwise (fun i j =>
        delayOf evs i < delayOf evs j ∨
          (delayOf evs i = delayOf evs j ∧ i < j)) ∧
      (∀ st₂ : ORANScheduler, scheduleAndRun evs T = .ok st₂ →
        st₂.trace = st.trace ∧ st₂.now = st.now) := by
  obtain ⟨st, heq, hnow, hcount, hpair, _⟩ := scheduleAndRun_spec evs T hpos hT
  refine ⟨st, heq, hnow, hcount, hpair, ?_⟩
  intro st₂ heq₂
  rw [heq] at heq₂
  cases heq₂
  exact ⟨rfl, rfl⟩

/-- C1 witness: the amended characterization applied at the concrete
schedule `[(delay 1), (delay 0), (delay 1)]` with `run(until=2)`. -/
theorem scheduler_run_characterization_witness :
    (∀ p ∈ ([((1 : ℚ), false), ((0 : ℚ), false), ((1 : ℚ), true)] : CallTable),
      0 ≤ p.1) ∧ (0 : ℚ) < 2 ∧
    (∃ st : ORANScheduler,
      scheduleAndRun
          [((1 : ℚ), false), ((0 : ℚ), false), ((1 : ℚ), true)] 2 = .ok st ∧
      st.now = 2 ∧
      (∀ i : Nat, st.trace.count i =
        if i < (([((1 : ℚ), false), ((0 : ℚ), false), ((1 : ℚ), true)] :
            CallTable)).length ∧
          delayOf [((1 : ℚ), false), ((0 : ℚ), false), ((1 : ℚ), true)] i < 2
        then 1 else 0) ∧
      st.trace.Pairwise (fun i j =>
        delayOf [((1 : ℚ), false), ((0 : ℚ), false), ((1 : ℚ), true)] i <
          delayOf [((1 : ℚ), false), ((0 : ℚ), false), ((1 : ℚ), true)] j ∨
          (delayOf [((1 : ℚ), false), ((0 : ℚ), false), ((1 : ℚ), true)] i =
            delayOf [((1 : ℚ), false), ((0 : ℚ), false), ((1 : ℚ), true)] j ∧
            i < j)) ∧
      (∀ st₂ : ORANScheduler,
        scheduleAndRun
            [((1 : ℚ), false), ((0 : ℚ), false), ((1 : ℚ), true)] 2 =
          .ok st₂ → st₂.trace = st.trace ∧ st₂.now = st.now)) :=
  ⟨by decide, by norm_num,
    scheduler_run_characterization
      [((1 : ℚ), false), ((0 : ℚ), false), ((1 : ℚ), true)] 2
      (by decide) (by norm_num)⟩

/-! ## Claim C8 -/

/-- C8: `add_event` with a negative delay raises `ValueError` immediately
(the check precedes the `env.process` call, so no event is inserted), and
`run(until)` with `until ≤` the current clock raises `ValueError`
immediately (the check precedes `env.run`, so the clock does not move and no
event fires); in both cases the embedded result is the error itself,
returned to the caller rather than caught. -/
theorem scheduler_misuse_raises (s : ORANScheduler) (d : ℚ) (i : Nat)
    (u : ℚ) (evs : CallTable) :
    (d < 0 → s.add_event d i = .error "Delay time cannot be negative") ∧
    (u ≤ s.now → ORANScheduler.run evs s u =
      .error "'until' value must be greater than current simulation time") := by
  constructor
  · intro h
    simp [ORANScheduler.add_event, h]
  · intro h
    simp [ORANScheduler.run, h]

/-- C8 witness: both misuse errors observed on the fresh scheduler at
concrete arguments (`delay = -1`, `until = 0`). -/
theorem scheduler_misuse_raises_witness :
    ((-1 : ℚ) < 0 ∧
      ORANScheduler.init.add_event (-1) 0 =
        .error "Delay time cannot be negative") ∧
    ((0 : ℚ) ≤ ORANScheduler.init.now ∧
      ORANScheduler.run [] ORANScheduler.init 0 =
        .error "'until' value must be greater than current simulation time") :=
  ⟨⟨by norm_num,
    (scheduler_misuse_raises ORANScheduler.init (-1) 0 0 []).1 (by norm_num)⟩,
   ⟨by decide,
    (scheduler_misuse_raises ORANScheduler.init (-1) 0 0 []).2 (by decide)⟩⟩

/-! # E2Interface model (src/oransim/interfaces/e2.py)

Subscribers (`self.e2_subscribers`) form a CPython dict: an
insertion-ordered association list with unique keys.  A subscriber callback
is embedded by its observable action when invoked with a message: do nothing,
call `unsubscribe(target)` on the interface, or raise an exception (which the
delivery loop catches per subscriber and logs).  Iteration over
`self.e2_subscribers.items()` follows CPython: each step of the iterator
first checks whether the dict's size still equals the size at iterator
creation and raises `RuntimeError` otherwise — this check happens before the
exhaustion check, so a size mutation during the last callback still raises. -/

/-- Observable behaviour of one subscriber callback. -/
inductive CbAct where
  | nop
  | unsub (target : String)
  | raiseErr
deriving Repr, DecidableEq

/-- The subscriber dict `e2_subscribers`: insertion-ordered, unique keys. -/
abbrev SubList := List (String × CbAct)

/-- Python `del d[sid]`: remove the (unique) entry with key `sid`. -/
def dictDel (sid : String) : SubList → SubList
  | [] => []
  | p :: rest => if p.1 == sid then rest else p :: dictDel sid rest

/-- Python dict assignment `d[k] = v` on an insertion-ordered dict: replace
the value in place when the key exists, append otherwise. -/
def dictSet {α : Type} (l : List (String × α)) (k : String) (v : α) :
    List (String × α) :=
  if l.any (fun p => p.1 == k) then
    l.map (fun p => if p.1 == k then (k, v) else p)
  else l ++ [(k, v)]

/-- Python dict lookup `d[k]` on an insertion-ordered dict. -/
def dictGet {α : Type} (k : String) : List (String × α) → Option α
  | [] => none
  | p :: rest => if p.1 == k then some p.2 else dictGet k rest

theorem dictSet_get {α : Type} (l : List (String × α)) (k : String)
    (v : α) : dictGet k (dictSet l k v) = some v := by
  unfold dictSet
  by_cases h : l.any (fun p => p.1 == k)
  · rw [if_pos h]
    induction l with
    | nil => simp at h
    | cons p rest ih =>
      by_cases hp : (p.1 == k) = true
      · rw [List.map_cons, if_pos hp]
        simp [dictGet]
      · rw [List.map_cons, if_neg hp]
        rw [show dictGet k ((p : String × α) ::
            rest.map (fun p => if p.1 == k then (k, v) else p)) =
          dictGet k (rest.map (fun p => if p.1 == k then (k, v) else p))
          from by simp [dictGet, hp]]
        apply ih
        rcases List.any_eq_true.1 h with ⟨q, hq, hqk⟩
        rcases List.mem_cons.1 hq with rfl | hq
        · exact absurd hqk hp
        · exact List.any_eq_true.2 ⟨q, hq, hqk⟩
  · rw [if_neg h]
    induction l with
    | nil => simp [dictGet]
    | cons p rest ih =>
      have hp : ¬ (p.1 == k) = true := by
        intro hc
        exact h (List.any_eq_true.2 ⟨p, by simp, hc⟩)
      rw [List.cons_append,
        show dictGet k ((p : String × α) :: (rest ++ [(k, v)])) =
          dictGet k (rest ++ [(k, v)]) from by simp [dictGet, hp]]
      apply ih
      intro hc
      rcases List.any_eq_true.1 hc with ⟨q, hq, hqk⟩
      exact h (List.any_eq_true.2 ⟨q, by simp [hq], hqk⟩)

/-- `E2Interface.subscribe`: Python dict assignment
`self.e2_subscribers[subscriber_id] = callback` — replaces the value in
place for an existing key (no warning, no no-op) and appends a new entry
otherwise.  The `isinstance`/`callable` argument checks are discharged by
the types of the embedding. -/
def E2Interface.subscribe (subs : SubList) (sid : String) (cb : CbAct) :
    SubList :=
  dictSet subs sid cb

/-- `E2Interface.unsubscribe`: deletes the entry when the id is subscribed,
otherwise logs a warning and leaves the dict unchanged. -/
def E2Interface.unsubscribe (subs : SubList) (sid : String) : SubList :=
  if subs.any (fun p => p.1 == sid) then dictDel sid subs
  else subs

/-- Result of delivering one message to the subscriber dict: the final dict,
the ids whose callbacks were invoked (in invocation order), the ids whose
callbacks raised (caught and logged per subscriber), and whether the
iteration itself raised `RuntimeError` because the dict's size changed
mid-iteration (that exception is not caught by the per-subscriber
`try/except`). -/
structure DeliverResult where
  subscribers : SubList
  invoked : List String
  errsLogged : List String
  sizeErr : Bool
deriving Repr, DecidableEq

/-- The `for subscriber_id, callback in self.e2_subscribers.items()` loop
body shared by `_process_message_queue` and `send_indication`: `i` is the
iterator position, `n0` the dict size at iterator creation.  Fuel-indexed
(the initial size plus one step is always enough, since any size change
aborts the iteration). -/
def deliverLoop :
    Nat → SubList → Nat → Nat → List String → List String → DeliverResult
  | 0, subs, _, _, inv, errs => ⟨subs, inv, errs, false⟩
  | fuel + 1, subs, i, n0, inv, errs =>
    if subs.length ≠ n0 then ⟨subs, inv, errs, true⟩
    else if i < subs.length then
      match subs.getD i ("", CbAct.nop) with
      | (sid, CbAct.nop) => deliverLoop fuel subs (i + 1) n0 (inv ++ [sid]) errs
      | (sid, CbAct.raiseErr) =>
        deliverLoop fuel subs (i + 1) n0 (inv ++ [sid]) (errs ++ [sid])
      | (sid, CbAct.unsub t) =>
        deliverLoop fuel (E2Interface.unsubscribe subs t) (i + 1) n0
          (inv ++ [sid]) errs
    else ⟨subs, inv, errs, false⟩

/-- Delivery of one queued message by `_process_message_queue` (the loop
over `self.e2_subscribers.items()` with a fresh iterator). -/
def E2Interface.deliverMessage (subs : SubList) : DeliverResult :=
  deliverLoop (subs.length + 1) subs 0 subs.length [] []

/-- `E2Interface._process_message_queue`: pops every queued message and fans
it out to the subscribers; the message payloads are opaque to the embedded
callback behaviours, so the queue is represented by its length.  A
`RuntimeError` from the subscriber iteration propagates out of the `while`
loop (the remaining queued messages are not delivered) and is then caught by
the scheduler's `event_wrapper`; the `Bool` component records it. -/
def E2Interface.process_message_queue :
    Nat → SubList → SubList × List (List String) × Bool
  | 0, subs => (subs, [], false)
  | k + 1, subs =>
    let r := E2Interface.deliverMessage subs
    if r.sizeErr then (r.subscribers, [r.invoked], true)
    else
      let rest := E2Interface.process_message_queue k r.subscribers
      (rest.1, r.invoked :: rest.2.1, rest.2.2)

/-- `E2Interface.send_indication`: the same `for ... in
self.e2_subscribers.items()` fan-out with per-subscriber `try/except`; a
`RuntimeError` from a mid-iteration size change propagates directly to the
caller of `send_indication`. -/
def E2Interface.send_indication (subs : SubList) : DeliverResult :=
  deliverLoop (subs.length + 1) subs 0 subs.length [] []

/-! ## E2 delivery lemmas -/

theorem deliverLoop_succ (fuel : Nat) (subs : SubList) (i n0 : Nat)
    (inv errs : List String) :
    deliverLoop (fuel + 1) subs i n0 inv errs =
      if subs.length ≠ n0 then ⟨subs, inv, errs, true⟩
      else if i < subs.length then
        match subs.getD i ("", CbAct.nop) with
        | (sid, CbAct.nop) =>
          deliverLoop fuel subs (i + 1) n0 (inv ++ [sid]) errs
        | (sid, CbAct.raiseErr) =>
          deliverLoop fuel subs (i + 1) n0 (inv ++ [sid]) (errs ++ [sid])
        | (sid, CbAct.unsub t) =>
          deliverLoop fuel (E2Interface.unsubscribe subs t) (i + 1) n0
            (inv ++ [sid]) errs
      else ⟨subs, inv, errs, false⟩ := rfl

theorem deliverLoop_no_mut (subs : SubList) :
    ∀ (fuel i : Nat) (inv errs : List String),
      (∀ p ∈ subs.drop i, ∀ t, p.2 ≠ CbAct.unsub t) →
      subs.length ≤ i + fuel →
      deliverLoop fuel subs i subs.length inv errs =
        ⟨subs, inv ++ (subs.drop i).map Prod.fst,
          errs ++ ((subs.drop i).filter
            (fun p => p.2 == CbAct.raiseErr)).map Prod.fst, false⟩ := by
  intro fuel
  induction fuel with
  | zero =>
    intro i inv errs _ hlen
    have hdrop : subs.drop i = [] := List.drop_eq_nil_of_le (by omega)
    simp [deliverLoop, hdrop]
  | succ fuel ih =>
    intro i inv errs hacts hlen
    by_cases hi : i < subs.length
    · have hdrop : subs.drop i = subs[i] :: subs.drop (i + 1) :=
        List.drop_eq_getElem_cons hi
      have hgetD : subs.getD i ("", CbAct.nop) = subs[i] :=
        List.getD_eq_getElem subs _ hi
      have hmemi : subs[i] ∈ subs.drop i := by
        rw [hdrop]; exact List.mem_cons_self _ _
      have hacts' : ∀ p ∈ subs.drop (i + 1), ∀ t, p.2 ≠ CbAct.unsub t := by
        intro p hp t
        exact hacts p (by rw [hdrop]; exact List.mem_cons_of_mem _ hp) t
      rcases hsi : subs[i] with ⟨sid, act⟩
      cases act with
      | nop =>
        rw [deliverLoop_succ, if_neg (by simp), if_pos hi, hgetD, hsi]
        show deliverLoop fuel subs (i + 1) subs.length (inv ++ [sid]) errs = _
        rw [ih (i + 1) (inv ++ [sid]) errs hacts' (by omega), hdrop, hsi]
        simp [List.filter_cons]
      | raiseErr =>
        rw [deliverLoop_succ, if_neg (by simp), if_pos hi, hgetD, hsi]
        show deliverLoop fuel subs (i + 1) subs.length (inv ++ [sid])
          (errs ++ [sid]) = _
        rw [ih (i + 1) (inv ++ [sid]) (errs ++ [sid]) hacts' (by omega),
          hdrop, hsi]
        simp [List.filter_cons]
      | unsub t =>
        have hcontra := hacts (sid, CbAct.unsub t) (by rw [← hsi]; exact hmemi) t
        simp at hcontra
    · have hdrop : subs.drop i = [] := List.drop_eq_nil_of_le (by omega)
      rw [deliverLoop_succ, if_neg (by simp), if_neg hi, hdrop]
      simp

theorem deliverLoop_prefix (subs : SubList) :
    ∀ (k fuel i : Nat) (inv errs : List String),
      (∀ p ∈ (subs.drop i).take k, ∀ t, p.2 ≠ CbAct.unsub t) →
      i + k ≤ subs.length →
      deliverLoop (k + fuel) subs i subs.length inv errs =
        deliverLoop fuel subs (i + k) subs.length
          (inv ++ ((subs.drop i).take k).map Prod.fst)
          (errs ++ (((subs.drop i).take k).filter
            (fun p => p.2 == CbAct.raiseErr)).map Prod.fst) := by
  intro k
  induction k with
  | zero =>
    intro fuel i inv errs _ _
    simp
  | succ k ih =>
    intro fuel i inv errs hacts hlen
    have hi : i < subs.length := by omega
    have hdrop : subs.drop i = subs[i] :: subs.drop (i + 1) :=
      List.drop_eq_getElem_cons hi
    have hgetD : subs.getD i ("", CbAct.nop) = subs[i] :=
      List.getD_eq_getElem subs _ hi
    have htake : (subs.drop i).take (k + 1) =
        subs[i] :: (subs.drop (i + 1)).take k := by
      rw [hdrop]; rfl
    have hacts' : ∀ p ∈ (subs.drop (i + 1)).take k, ∀ t,
        p.2 ≠ CbAct.unsub t := by
      intro p hp t
      exact hacts p (by rw [htake]; exact List.mem_cons_of_mem _ hp) t
    have hfuel : k + 1 + fuel = (k + fuel) + 1 := by omega
    rcases hsi : subs[i] with ⟨sid, act⟩
    cases act with
    | nop =>
      rw [hfuel, deliverLoop_succ, if_neg (by simp), if_pos hi, hgetD, hsi]
      show deliverLoop (k + fuel) subs (i + 1) subs.length (inv ++ [sid])
        errs = _
      rw [ih fuel (i + 1) (inv ++ [sid]) errs hacts' (by omega), htake, hsi]
      have : i + 1 + k = i + (k + 1) := by omega
      rw [this]
      simp [List.filter_cons]
    | raiseErr =>
      rw [hfuel, deliverLoop_succ, if_neg (by simp), if_pos hi, hgetD, hsi]
      show deliverLoop (k + fuel) subs (i + 1) subs.length (inv ++ [sid])
        (errs ++ [sid]) = _
      rw [ih fuel (i + 1) (inv ++ [sid]) (errs ++ [sid]) hacts' (by omega),
        htake, hsi]
      have : i + 1 + k = i + (k + 1) := by omega
      rw [this]
      simp [List.filter_cons]
    | unsub t =>
      have hcontra := hacts (sid, CbAct.unsub t)
        (by rw [htake, ← hsi]; exact List.mem_cons_self _ _) t
      simp at hcontra

theorem dictDel_append (s : String) (a : CbAct) (post : SubList) :
    ∀ pre : SubList, (∀ p ∈ pre, p.1 ≠ s) →
      dictDel s (pre ++ (s, a) :: post) = pre ++ post := by
  intro pre
  induction pre with
  | nil => intro _; simp [dictDel]
  | cons q rest ih =>
    intro hpre
    have hq : (q.1 == s) = false := by
      simp [hpre q (by simp)]
    show dictDel s (q :: (rest ++ (s, a) :: post)) = q :: (rest ++ post)
    simp [dictDel, hq, ih (fun p hp => hpre p (List.mem_cons_of_mem q hp))]

theorem deliverMessage_no_mut (subs : SubList)
    (hacts : ∀ p ∈ subs, ∀ t, p.2 ≠ CbAct.unsub t) :
    E2Interface.deliverMessage subs =
      ⟨subs, subs.map Prod.fst,
        (subs.filter (fun p => p.2 == CbAct.raiseErr)).map Prod.fst,
        false⟩ := by
  unfold E2Interface.deliverMessage
  rw [deliverLoop_no_mut subs (subs.length + 1) 0 [] []
    (by simpa using hacts) (by omega)]
  simp

theorem deliverMessage_self_unsub (pre post : SubList) (s : String)
    (hpre : ∀ p ∈ pre, ∀ t, p.2 ≠ CbAct.unsub t)
    (hs : ∀ p ∈ pre, p.1 ≠ s) :
    E2Interface.deliverMessage (pre ++ (s, CbAct.unsub s) :: post) =
      ⟨pre ++ post, pre.map Prod.fst ++ [s],
        (pre.filter (fun p => p.2 == CbAct.raiseErr)).map Prod.fst,
        true⟩ := by
  unfold E2Interface.deliverMessage
  set subs : SubList := pre ++ (s, CbAct.unsub s) :: post with hsubs
  have hlen : subs.length = pre.length + post.length + 1 := by
    simp [hsubs]
    omega
  have htakepre : (subs.drop 0).take pre.length = pre := by
    rw [List.drop_zero, hsubs]
    exact List.take_left pre _
  have hfuel : subs.length + 1 = pre.length + (post.length + 2) := by omega
  rw [hfuel, deliverLoop_prefix subs pre.length (post.length + 2) 0 [] []
    (by rw [htakepre]; exact hpre) (by omega)]
  rw [htakepre]
  have hget : subs.getD (0 + pre.length) ("", CbAct.nop) =
      (s, CbAct.unsub s) := by
    rw [Nat.zero_add, List.getD_eq_getElem?_getD, hsubs]
    rw [List.getElem?_append_right (le_refl pre.length)]
    simp
  have hstep : (post.length + 2) = (post.length + 1) + 1 := by omega
  rw [hstep, deliverLoop_succ, if_neg (by simp), if_pos (by omega), hget]
  show deliverLoop (post.length + 1)
      (E2Interface.unsubscribe subs s) (0 + pre.length + 1) subs.length
      (([] ++ pre.map Prod.fst) ++ [s]) _ = _
  have hunsub : E2Interface.unsubscribe subs s = pre ++ post := by
    unfold E2Interface.unsubscribe
    rw [if_pos]
    · rw [hsubs]
      exact dictDel_append s (CbAct.unsub s) post pre hs
    · rw [List.any_eq_true]
      exact ⟨(s, CbAct.unsub s), by simp [hsubs], by simp⟩
  rw [hunsub]
  rw [deliverLoop_succ, if_pos (show (pre ++ post).length ≠ subs.length by
    simp only [List.length_append, hlen]; omega)]
  simp

/-! ## Claim C2 -/

/-- C2 counterexample: with subscribers `s1` (whose callback unsubscribes
`s1`) and `s2`, both present when delivery was scheduled, delivering one
message invokes only `s1`: the loop iterates the live dict, `s1`'s
unsubscribe shrinks it, and the next iterator step raises `RuntimeError`, so
`s2` — present at scheduling time — never receives the message, contradicting
the claimed snapshot semantics. -/
theorem e2_delivery_not_snapshot :
    (E2Interface.deliverMessage
      [("s1", CbAct.unsub "s1"), ("s2", CbAct.nop)]).invoked = ["s1"] ∧
    "s2" ∉ (E2Interface.deliverMessage
      [("s1", CbAct.unsub "s1"), ("s2", CbAct.nop)]).invoked ∧
    (E2Interface.deliverMessage
      [("s1", CbAct.unsub "s1"), ("s2", CbAct.nop)]).sizeErr = true := by
  decide

/-- C2 (amended): delivery does not snapshot the subscriber set — it
iterates the live `e2_subscribers` dict at delivery time.  When no callback
mutates the dict, every subscriber present at delivery time receives the
message exactly once, in insertion order.  A subscriber that unsubscribes
itself from inside its own callback does still receive that one delivery and
is removed, but the size change makes the iteration raise `RuntimeError`, so
the subscribers after it in insertion order do not receive the message, and
 for the queued path the error propagates out of `_process_message_queue`
(where the scheduler's `event_wrapper` catches and logs it). -/
theorem e2_delivery_live_iteration :
    (∀ subs : SubList, (∀ p ∈ subs, ∀ t, p.2 ≠ CbAct.unsub t) →
      (E2Interface.deliverMessage subs).invoked = subs.map Prod.fst ∧
      (E2Interface.deliverMessage subs).sizeErr = false) ∧
    (∀ (pre post : SubList) (s : String),
      (∀ p ∈ pre, ∀ t, p.2 ≠ CbAct.unsub t) → (∀ p ∈ pre, p.1 ≠ s) →
      (E2Interface.deliverMessage
          (pre ++ (s, CbAct.unsub s) :: post)).invoked =
        pre.map Prod.fst ++ [s] ∧
      (E2Interface.deliverMessage
          (pre ++ (s, CbAct.unsub s) :: post)).subscribers = pre ++ post ∧
      (E2Interface.deliverMessage
          (pre ++ (s, CbAct.unsub s) :: post)).sizeErr = true ∧
      (E2Interface.process_message_queue 1
          (pre ++ (s, CbAct.unsub s) :: post)).2.2 = true) := by
  constructor
  · intro subs h
    rw [deliverMessage_no_mut subs h]
    exact ⟨rfl, rfl⟩
  · intro pre post s h1 h2
    refine ⟨?_, ?_, ?_, ?_⟩ <;>
      simp [E2Interface.process_message_queue,
        deliverMessage_self_unsub pre post s h1 h2]

/-- C2 witness: the amended statement applied at two concrete subscriber
dicts — `[a, b]` with no mutation, and `[a, (s, unsubscribes s), z]`. -/
theorem e2_delivery_live_iteration_witness :
    ((∀ p ∈ ([("a", CbAct.nop), ("b", CbAct.raiseErr)] : SubList),
        ∀ t, p.2 ≠ CbAct.unsub t) ∧
      (E2Interface.deliverMessage
          [("a", CbAct.nop), ("b", CbAct.raiseErr)]).invoked =
        ([("a", CbAct.nop), ("b", CbAct.raiseErr)] : SubList).map Prod.fst ∧
      (E2Interface.deliverMessage
          [("a", CbAct.nop), ("b", CbAct.raiseErr)]).sizeErr = false) ∧
    ((∀ p ∈ ([("a", CbAct.nop)] : SubList), ∀ t, p.2 ≠ CbAct.unsub t) ∧
      (∀ p ∈ ([("a", CbAct.nop)] : SubList), p.1 ≠ "s") ∧
      ((E2Interface.deliverMessage
          ([("a", CbAct.nop)] ++ ("s", CbAct.unsub "s") ::
            [("z", CbAct.nop)])).invoked =
        ([("a", CbAct.nop)] : SubList).map Prod.fst ++ ["s"] ∧
      (E2Interface.deliverMessage
          ([("a", CbAct.nop)] ++ ("s", CbAct.unsub "s") ::
            [("z", CbAct.nop)])).subscribers =
        [("a", CbAct.nop)] ++ [("z", CbAct.nop)] ∧
      (E2Interface.deliverMessage
          ([("a", CbAct.nop)] ++ ("s", CbAct.unsub "s") ::
            [("z", CbAct.nop)])).sizeErr = true ∧
      (E2Interface.process_message_queue 1
          ([("a", CbAct.nop)] ++ ("s", CbAct.unsub "s") ::
            [("z", CbAct.nop)])).2.2 = true)) :=
  ⟨⟨by intro p hp t; simp only [List.mem_cons, List.not_mem_nil, or_false] at hp; rcases hp with rfl | rfl <;> simp,
    e2_delivery_live_iteration.1 _ (by intro p hp t; simp only [List.mem_cons, List.not_mem_nil, or_false] at hp; rcases hp with rfl | rfl <;> simp)⟩,
   ⟨by intro p hp t; simp only [List.mem_singleton] at hp; subst hp; simp, by decide,
    e2_delivery_live_iteration.2 [("a", CbAct.nop)] [("z", CbAct.nop)] "s"
      (by intro p hp t; simp only [List.mem_singleton] at hp; subst hp; simp) (by decide)⟩⟩

/-! ## Claim C3 -/

/-- C3: a raising callback is caught at the point of invocation and logged.
For the scheduler: with arbitrary raising flags on the callbacks, the run
still returns normally (`Except.ok`: nothing propagates to the caller of
`run`), every pending event below the horizon is still invoked exactly once
(the loop is not stopped and no other delivery is prevented), and the error
log is exactly the invocations of raising callbacks.  For the pub/sub path:
with subscribers that do not mutate the dict, every subscriber is invoked
even when some raise, the iteration completes without error, and the
per-subscriber `except` clause logs exactly the raising subscribers. -/
theorem callback_errors_isolated :
    (∀ (evs : CallTable) (T : ℚ), (∀ p ∈ evs, 0 ≤ p.1) → 0 < T →
      ∃ st : ORANScheduler,
        scheduleAndRun evs T = .ok st ∧
        st.now = T ∧
        (∀ i : Nat, st.trace.count i =
          if i < evs.length ∧ delayOf evs i < T then 1 else 0) ∧
        st.errors = st.trace.filter (failsOf evs)) ∧
    (∀ subs : SubList, (∀ p ∈ subs, ∀ t, p.2 ≠ CbAct.unsub t) →
      (E2Interface.deliverMessage subs).invoked = subs.map Prod.fst ∧
      (E2Interface.deliverMessage subs).sizeErr = false ∧
      (E2Interface.deliverMessage subs).errsLogged =
        (subs.filter (fun p => p.2 == CbAct.raiseErr)).map Prod.fst) := by
  constructor
  · intro evs T hpos hT
    obtain ⟨st, h1, h2, h3, _, h5⟩ := scheduleAndRun_spec evs T hpos hT
    exact ⟨st, h1, h2, h3, h5⟩
  · intro subs h
    rw [deliverMessage_no_mut subs h]
    exact ⟨rfl, rfl, rfl⟩

/-- C3 witness: the isolation statement applied at a schedule whose first
callback raises, and at a subscriber dict whose first subscriber raises. -/
theorem callback_errors_isolated_witness :
    ((∀ p ∈ ([((0 : ℚ), true), ((1 : ℚ), false)] : CallTable), 0 ≤ p.1) ∧
      (0 : ℚ) < 3 ∧
      (∃ st : ORANScheduler,
        scheduleAndRun [((0 : ℚ), true), ((1 : ℚ), false)] 3 = .ok st ∧
        st.now = 3 ∧
        (∀ i : Nat, st.trace.count i =
          if i < ([((0 : ℚ), true), ((1 : ℚ), false)] : CallTable).length ∧
            delayOf [((0 : ℚ), true), ((1 : ℚ), false)] i < 3
          then 1 else 0) ∧
        st.errors = st.trace.filter
          (failsOf [((0 : ℚ), true), ((1 : ℚ), false)]))) ∧
    ((∀ p ∈ ([("x", CbAct.raiseErr), ("y", CbAct.nop)] : SubList),
        ∀ t, p.2 ≠ CbAct.unsub t) ∧
      (E2Interface.deliverMessage
          [("x", CbAct.raiseErr), ("y", CbAct.nop)]).invoked =
        ([("x", CbAct.raiseErr), ("y", CbAct.nop)] : SubList).map Prod.fst ∧
      (E2Interface.deliverMessage
          [("x", CbAct.raiseErr), ("y", CbAct.nop)]).sizeErr = false ∧
      (E2Interface.deliverMessage
          [("x", CbAct.raiseErr), ("y", CbAct.nop)]).errsLogged =
        (([("x", CbAct.raiseErr), ("y", CbAct.nop)] : SubList).filter
          (fun p => p.2 == CbAct.raiseErr)).map Prod.fst) :=
  ⟨⟨by decide, by norm_num,
    callback_errors_isolated.1 [((0 : ℚ), true), ((1 : ℚ), false)] 3
      (by decide) (by norm_num)⟩,
   ⟨by intro p hp t; simp only [List.mem_cons, List.not_mem_nil, or_false] at hp; rcases hp with rfl | rfl <;> simp,
    callback_errors_isolated.2 [("x", CbAct.raiseErr), ("y", CbAct.nop)]
      (by intro p hp t; simp only [List.mem_cons, List.not_mem_nil, or_false] at hp; rcases hp with rfl | rfl <;> simp)⟩⟩

/-! # X2Interface model (src/oransim/interfaces/x2.py)

Node handles are opaque (`Nat`); message payloads are opaque (`Nat`).
`scheduled` counts the `self.scheduler.add_event(0, self._process_message_queue)`
calls made, so that "no delivery event was scheduled" is visible in the
state. -/

structure X2Interface where
  nodes : List (String × Nat)
  message_queue : List (Nat × String × String)
  scheduled : Nat
deriving Repr, DecidableEq

/-- `X2Interface.register_node`: warn and return when the id is already
registered (no overwrite); otherwise add the node. -/
def X2Interface.register_node (st : X2Interface) (node_id : String)
    (node : Nat) : X2Interface :=
  if st.nodes.any (fun p => p.1 == node_id) then st
  else { st with nodes := st.nodes ++ [(node_id, node)] }

/-- `X2Interface.send_message`: raises `ValueError` when the source, then
the destination, is not registered — before anything is queued or
scheduled; on success appends to the message queue and schedules a
zero-delay `_process_message_queue` event.  The state is returned alongside
the outcome, so the error cases visibly leave the queue, the registry and
the scheduled-event count unchanged. -/
def X2Interface.send_message (st : X2Interface) (message : Nat)
    (source_node_id dest_node_id : String) :
    Except String Unit × X2Interface :=
  if (st.nodes.any (fun p => p.1 == source_node_id)) = false then
    (.error ("Source node " ++ source_node_id ++
      " not registered on X2 interface."), st)
  else if (st.nodes.any (fun p => p.1 == dest_node_id)) = false then
    (.error ("Destination node " ++ dest_node_id ++
      " not registered on X2 interface."), st)
  else (.ok (), { st with
    message_queue :=
      st.message_queue ++ [(message, source_node_id, dest_node_id)],
    scheduled := st.scheduled + 1 })

/-- `X2Interface._process_message_queue`: drains the queue; each message is
handed to `self.nodes[dest].receive_x2_message` with `KeyError` (missing
destination at delivery time) and receive errors caught and logged.
Returns the drained state and the list of `receive_x2_message` invocations
performed. -/
def X2Interface.process_message_queue (st : X2Interface) :
    X2Interface × List (Nat × String × String) :=
  ({ st with message_queue := [] },
    st.message_queue.filter (fun q => st.nodes.any (fun p => p.1 == q.2.2)))

/-! # XnInterface model (src/oransim/interfaces/xn.py) — the same routing
discipline as X2, duplicated in the source with Xn wording. -/

structure XnInterface where
  nodes : List (String × Nat)
  message_queue : List (Nat × String × String)
  scheduled : Nat
deriving Repr, DecidableEq

/-- `XnInterface.register_node`: warn and return on a duplicate id. -/
def XnInterface.register_node (st : XnInterface) (node_id : String)
    (node : Nat) : XnInterface :=
  if st.nodes.any (fun p => p.1 == node_id) then st
  else { st with nodes := st.nodes ++ [(node_id, node)] }

/-- `XnInterface.send_message`: source then destination registration check,
raising `ValueError` before any mutation; on success queue and schedule. -/
def XnInterface.send_message (st : XnInterface) (message : Nat)
    (source_node_id dest_node_id : String) :
    Except String Unit × XnInterface :=
  if (st.nodes.any (fun p => p.1 == source_node_id)) = false then
    (.error ("Source node " ++ source_node_id ++
      " not registered on Xn interface."), st)
  else if (st.nodes.any (fun p => p.1 == dest_node_id)) = false then
    (.error ("Destination node " ++ dest_node_id ++
      " not registered on Xn interface."), st)
  else (.ok (), { st with
    message_queue :=
      st.message_queue ++ [(message, source_node_id, dest_node_id)],
    scheduled := st.scheduled + 1 })

/-! ## Claim C4 -/

/-- C4: point-to-point `send_message` on the X2 and Xn routers with an
unregistered source or destination raises `ValueError` synchronously and
performs no delivery: the returned state is exactly the input state, so the
message queue, the node registry and the count of scheduled delivery events
are unchanged, and — since `receive_x2_message` / `receive_xn_message` are
invoked only by `_process_message_queue` on queued messages — no node's
receive callback is ever invoked for the message. -/
theorem send_message_unregistered_raises
    (stx : X2Interface) (stn : XnInterface) (m : Nat) (src dst : String) :
    ((stx.nodes.any (fun p => p.1 == src)) = false →
      stx.send_message m src dst =
        (.error ("Source node " ++ src ++
          " not registered on X2 interface."), stx)) ∧
    ((stx.nodes.any (fun p => p.1 == src)) = true →
      (stx.nodes.any (fun p => p.1 == dst)) = false →
      stx.send_message m src dst =
        (.error ("Destination node " ++ dst ++
          " not registered on X2 interface."), stx)) ∧
    ((stn.nodes.any (fun p => p.1 == src)) = false →
      stn.send_message m src dst =
        (.error ("Source node " ++ src ++
          " not registered on Xn interface."), stn)) ∧
    ((stn.nodes.any (fun p => p.1 == src)) = true →
      (stn.nodes.any (fun p => p.1 == dst)) = false →
      stn.send_message m src dst =
        (.error ("Destination node " ++ dst ++
          " not registered on Xn interface."), stn)) := by
  refine ⟨?_, ?_, ?_, ?_⟩
  · intro h
    simp [X2Interface.send_message, h]
  · intro h1 h2
    simp [X2Interface.send_message, h1, h2]
  · intro h
    simp [XnInterface.send_message, h]
  · intro h1 h2
    simp [XnInterface.send_message, h1, h2]

/-- C4 witness: on an X2/Xn registry holding only node `n1`, sending from
the unregistered `nx` errors with the source message and leaves the state
unchanged; sending from `n1` to the unregistered `nx` errors with the
destination message and leaves the state unchanged. -/
theorem send_message_unregistered_raises_witness :
    (((⟨[("n1", 1)], [], 0⟩ : X2Interface).nodes.any
        (fun p => p.1 == "nx")) = false ∧
      (⟨[("n1", 1)], [], 0⟩ : X2Interface).send_message 7 "nx" "n1" =
        (.error ("Source node " ++ "nx" ++
          " not registered on X2 interface."), ⟨[("n1", 1)], [], 0⟩)) ∧
    (((⟨[("n1", 1)], [], 0⟩ : XnInterface).nodes.any
        (fun p => p.1 == "n1")) = true ∧
      ((⟨[("n1", 1)], [], 0⟩ : XnInterface).nodes.any
        (fun p => p.1 == "nx")) = false ∧
      (⟨[("n1", 1)], [], 0⟩ : XnInterface).send_message 7 "n1" "nx" =
        (.error ("Destination node " ++ "nx" ++
          " not registered on Xn interface."), ⟨[("n1", 1)], [], 0⟩)) :=
  ⟨⟨by decide,
    (send_message_unregistered_raises ⟨[("n1", 1)], [], 0⟩
      ⟨[("n1", 1)], [], 0⟩ 7 "nx" "n1").1 (by decide)⟩,
   ⟨by decide, by decide,
    (send_message_unregistered_raises ⟨[("n1", 1)], [], 0⟩
      ⟨[("n1", 1)], [], 0⟩ 7 "n1" "nx").2.2.2 (by decide) (by decide)⟩⟩

/-! # RIC model (src/oransim/core/ric.py, policy type from
src/oransim/interfaces/a1.py)

Policy contents are opaque (`Nat`); E2 nodes are represented by their
Python class name (`node.__class__.__name__`), which is what
`enforce_a1_policies` dispatches on. -/

/-- `A1PolicyType` enumeration. -/
inductive A1PolicyType where
  | TYPE_1
  | TYPE_2
  | TYPE_3
deriving Repr, DecidableEq

/-- `A1Policy` pydantic model: type, unique id, opaque content, version
(defaulted to "1.0"), and target element-class selector. -/
structure A1Policy where
  policy_type : A1PolicyType
  policy_id : String
  policy_content : Nat
  version : String := "1.0"
  target : String
deriving Repr, DecidableEq

/-- `NearRTRIC` state relevant to the claims: the `a1_policies` dict
(policy_id ↦ policy) and the `e2_nodes` dict (node_id ↦ class name). -/
structure NearRTRIC where
  a1_policies : List (String × A1Policy)
  e2_nodes : List (String × String)
deriving Repr, DecidableEq

/-- `NearRTRIC.store_a1_policy`: dict assignment
`self.a1_policies[policy.policy_id] = policy` (last write wins). -/
def NearRTRIC.store_a1_policy (st : NearRTRIC) (policy : A1Policy) :
    NearRTRIC :=
  { st with a1_policies := dictSet st.a1_policies policy.policy_id policy }

/-- `NearRTRIC.register_e2_node`: dict assignment
`self.e2_nodes[node_id] = node` — an unconditional overwrite, with no
duplicate check and no warning. -/
def NearRTRIC.register_e2_node (st : NearRTRIC) (node_id : String)
    (nodeClass : String) : NearRTRIC :=
  { st with e2_nodes := dictSet st.e2_nodes node_id nodeClass }

/-- `NearRTRIC.enforce_a1_policies`: for every stored policy, when its
target is `"o_du"` it sweeps `e2_nodes` and acts on every node whose class
name is `"O_DU"`; when its target is `"o_ru"`, on every node whose class
name is `"O_RU"` (the two `if` blocks run in sequence, not `elif`).

Modelled from the spec: the element policy-application callback.  At the
matched node the code only logs `"Applying policy ..."` and carries the
placeholder comment `# Implement logic to apply policy to O-DU` — the
actual application call is missing from the source, so, following the
spec's "triggers the element's policy-application callback", the action is
modelled as the emission of one `(policy_id, node_id)` application event at
exactly that point; the iteration and matching structure is the code's. -/
def NearRTRIC.enforce_a1_policies (st : NearRTRIC) :
    List (String × String) :=
  st.a1_policies.foldl (fun acc pp =>
    acc ++
      (if pp.2.target == "o_du" then
        (st.e2_nodes.filter (fun n => n.2 == "O_DU")).map (fun n => (pp.1, n.1))
      else []) ++
      (if pp.2.target == "o_ru" then
        (st.e2_nodes.filter (fun n => n.2 == "O_RU")).map (fun n => (pp.1, n.1))
      else [])) []

/-- `NonRTRIC` state relevant to the claims: the policy store of the
Near-RT RIC reachable as `self.a1_interface.near_rt_ric.a1_policies`,
which `create_a1_policy` reads to generate ids. -/
structure NonRTRIC where
  near_rt_ric_a1_policies : List (String × A1Policy)
deriving Repr, DecidableEq

/-- `NonRTRIC.create_a1_policy`: builds the policy with
`policy_id = f"policy-{len(self.a1_interface.near_rt_ric.a1_policies) + 1}"`
("Simple ID generation").  It mutates nothing: the id depends only on how
many policies are currently stored in the attached Near-RT RIC. -/
def NonRTRIC.create_a1_policy (st : NonRTRIC) (policy_type : A1PolicyType)
    (policy_content : Nat) (target : String) : A1Policy :=
  { policy_type := policy_type,
    policy_id := "policy-" ++ toString (st.near_rt_ric_a1_policies.length + 1),
    policy_content := policy_content,
    version := "1.0",
    target := target }

/-! ## Claim C6 -/

/-- C6: with one stored policy targeting element class A (`target "o_du"`,
matching class name `"O_DU"`) and a registry holding one class-A element
`a` and one class-B element `b` (`"O_RU"`), one `enforce_a1_policies` pass
emits the policy-application event for `a` exactly once and never for `b`.
The application action is the spec-modelled policy-application callback
(the code's apply step is a logging placeholder); the selection logic is
the code's. -/
theorem enforce_policies_target_match (st : NearRTRIC) (pid : String)
    (p : A1Policy) (a b : String)
    (hpol : st.a1_policies = [(pid, p)])
    (htgt : p.target = "o_du")
    (hnodes : st.e2_nodes = [(a, "O_DU"), (b, "O_RU")])
    (hab : a ≠ b) :
    st.enforce_a1_policies.count (pid, a) = 1 ∧
    ∀ x ∈ st.enforce_a1_policies, x.2 ≠ b := by
  have henf : st.enforce_a1_policies = [(pid, a)] := by
    unfold NearRTRIC.enforce_a1_policies
    rw [hpol, hnodes]
    simp [htgt]
  rw [henf]
  constructor
  · simp
  · intro x hx
    simp only [List.mem_singleton] at hx
    subst hx
    simpa using hab

/-- C6 witness: the enforcement scenario at one concrete policy `p1`
targeting `"o_du"` with elements `du1` (class `O_DU`) and `ru1` (class
`O_RU`). -/
theorem enforce_policies_target_match_witness :
    ((⟨[("p1", ⟨A1PolicyType.TYPE_1, "p1", 0, "1.0", "o_du"⟩)],
        [("du1", "O_DU"), ("ru1", "O_RU")]⟩ : NearRTRIC).a1_policies =
      [("p1", ⟨A1PolicyType.TYPE_1, "p1", 0, "1.0", "o_du"⟩)] ∧
    (⟨A1PolicyType.TYPE_1, "p1", 0, "1.0", "o_du"⟩ : A1Policy).target =
      "o_du" ∧
    (⟨[("p1", ⟨A1PolicyType.TYPE_1, "p1", 0, "1.0", "o_du"⟩)],
        [("du1", "O_DU"), ("ru1", "O_RU")]⟩ : NearRTRIC).e2_nodes =
      [("du1", "O_DU"), ("ru1", "O_RU")] ∧
    "du1" ≠ "ru1") ∧
    ((⟨[("p1", ⟨A1PolicyType.TYPE_1, "p1", 0, "1.0", "o_du"⟩)],
        [("du1", "O_DU"), ("ru1", "O_RU")]⟩ :
          NearRTRIC).enforce_a1_policies.count ("p1", "du1") = 1 ∧
      ∀ x ∈ (⟨[("p1", ⟨A1PolicyType.TYPE_1, "p1", 0, "1.0", "o_du"⟩)],
        [("du1", "O_DU"), ("ru1", "O_RU")]⟩ :
          NearRTRIC).enforce_a1_policies, x.2 ≠ "ru1") :=
  ⟨⟨rfl, rfl, rfl, by decide⟩,
    enforce_policies_target_match _ "p1"
      ⟨A1PolicyType.TYPE_1, "p1", 0, "1.0", "o_du"⟩ "du1" "ru1"
      rfl rfl rfl (by decide)⟩

/-! ## Claim C7 -/

/-- C7 counterexample: two distinct `create_a1_policy` calls (different
types, contents and targets) on the same controller, whose attached
Near-RT RIC has stored no policies, both return the id `"policy-1"`: the
ids are equal, not distinct, because the id is computed from
`len(near_rt_ric.a1_policies) + 1`, which `create_a1_policy` never
changes. -/
theorem create_policy_duplicate_ids :
    ((⟨[]⟩ : NonRTRIC).create_a1_policy A1PolicyType.TYPE_1 0
      "o_du").policy_id = "policy-1" ∧
    ((⟨[]⟩ : NonRTRIC).create_a1_policy A1PolicyType.TYPE_2 1
      "o_ru").policy_id = "policy-1" := by
  decide

/-- C7 (amended): `create_a1_policy` generates
`policy_id = "policy-" ++ (size of the attached Near-RT RIC's policy store
+ 1)` — not a monotonic counter scoped to the controller.  The id depends
only on the store size, so two calls on the same controller return the
same id whenever no policy was stored in between; ids from different calls
are distinct only when the store size differs at the two calls. -/
theorem create_policy_id_from_store_size (st : NonRTRIC)
    (t1 t2 : A1PolicyType) (c1 c2 : Nat) (tg1 tg2 : String) :
    (st.create_a1_policy t1 c1 tg1).policy_id =
      "policy-" ++ toString (st.near_rt_ric_a1_policies.length + 1) ∧
    (st.create_a1_policy t1 c1 tg1).policy_id =
      (st.create_a1_policy t2 c2 tg2).policy_id :=
  ⟨rfl, rfl⟩

/-! ## Claim C9 -/

/-- C9 counterexample: subscribing the same id twice on the E2 interface
with different callbacks stores the second callback — Python dict
assignment overwrites, with no warning and no no-op; the claim predicted
the stored callback would still be the first one. -/
theorem subscribe_overwrites_callback :
    dictGet "s" (E2Interface.subscribe
      (E2Interface.subscribe [] "s" CbAct.nop) "s" CbAct.raiseErr) =
      some CbAct.raiseErr ∧
    CbAct.raiseErr ≠ CbAct.nop := by
  decide

/-- C9 (amended): the re-registration discipline differs by registry.  The
X2 and Xn node registries make a duplicate `register_node` a no-op with a
warning (the stored handle and the whole state are unchanged).  The E2
subscriber registry (`subscribe`) and the Near-RT RIC's E2-node registry
(`register_e2_node`) use plain dict assignment: registering an existing id
overwrites, so the stored handle after the second call is the new one
(last write wins). -/
theorem registration_discipline_amended :
    (∀ (st : X2Interface) (nid : String) (node : Nat),
      (st.nodes.any (fun p => p.1 == nid)) = true →
      st.register_node nid node = st) ∧
    (∀ (st : XnInterface) (nid : String) (node : Nat),
      (st.nodes.any (fun p => p.1 == nid)) = true →
      st.register_node nid node = st) ∧
    (∀ (subs : SubList) (sid : String) (cb : CbAct),
      dictGet sid (E2Interface.subscribe subs sid cb) = some cb) ∧
    (∀ (st : NearRTRIC) (nid cls : String),
      dictGet nid (st.register_e2_node nid cls).e2_nodes = some cls) := by
  refine ⟨?_, ?_, ?_, ?_⟩
  · intro st nid node h
    simp [X2Interface.register_node, h]
  · intro st nid node h
    simp [XnInterface.register_node, h]
  · intro subs sid cb
    exact dictSet_get subs sid cb
  · intro st nid cls
    exact dictSet_get st.e2_nodes nid cls

/-- C9 witness: duplicate registrations on concrete registries — `n1`
re-registered on X2 and Xn is a no-op; `s` re-subscribed on E2 stores the
new callback; `du1` re-registered on the Near-RT RIC stores the new
class. -/
theorem registration_discipline_amended_witness :
    (((⟨[("n1", 1)], [], 0⟩ : X2Interface).nodes.any
        (fun p => p.1 == "n1")) = true ∧
      (⟨[("n1", 1)], [], 0⟩ : X2Interface).register_node "n1" 2 =
        ⟨[("n1", 1)], [], 0⟩) ∧
    (((⟨[("n1", 1)], [], 0⟩ : XnInterface).nodes.any
        (fun p => p.1 == "n1")) = true ∧
      (⟨[("n1", 1)], [], 0⟩ : XnInterface).register_node "n1" 2 =
        ⟨[("n1", 1)], [], 0⟩) ∧
    dictGet "s" (E2Interface.subscribe [("s", CbAct.nop)] "s"
      CbAct.raiseErr) = some CbAct.raiseErr ∧
    dictGet "du1" ((⟨[], [("du1", "O_DU")]⟩ :
      NearRTRIC).register_e2_node "du1" "O_RU").e2_nodes = some "O_RU" :=
  ⟨⟨by decide, registration_discipline_amended.1 ⟨[("n1", 1)], [], 0⟩
      "n1" 2 (by decide)⟩,
   ⟨by decide, registration_discipline_amended.2.1 ⟨[("n1", 1)], [], 0⟩
      "n1" 2 (by decide)⟩,
   registration_discipline_amended.2.2.1 [("s", CbAct.nop)] "s"
     CbAct.raiseErr,
   registration_discipline_amended.2.2.2 ⟨[], [("du1", "O_DU")]⟩
     "du1" "O_RU"⟩

/-! # RandomWaypointModel (src/oransim/core/mobility.py)

Positions are pairs of rationals (exact arithmetic in place of numpy
floats).  The `random.normalvariate` / `random.uniform` draws are modelled
by consuming a stream `rng : List ℚ` of pre-drawn values head first: the
paused branch consumes one draw per call (the code calls
`random.normalvariate` inside the comparison on every paused tick), and
choosing a new target consumes two draws.  The comparison
`np.linalg.norm(direction) < self.speed * time_elapsed` is translated
exactly, for the nonnegative norm, as
`0 < speed·dt ∧ dist² < (speed·dt)²`.  The else-branch advance
`current + direction / norm(direction) * speed * dt` divides by the
generally irrational norm, so that one expression is abstracted as the
parameter `fracMove` of the embedding; no claim depends on its value. -/

structure RandomWaypointModel where
  speed : ℚ
  area_size : ℚ × ℚ
  pause_time_mean : ℚ
  pause_time_std : ℚ
  target : Option (ℚ × ℚ)
  pause_timer : ℚ
  is_paused : Bool
  tolerance : ℚ
deriving Repr, DecidableEq

/-- Squared Euclidean length of `t - p`. -/
def dist2 (p t : ℚ × ℚ) : ℚ :=
  (t.1 - p.1) * (t.1 - p.1) + (t.2 - p.2) * (t.2 - p.2)

/-- Exact translation of `np.linalg.norm(t - p) < d`: for the nonnegative
norm, `norm < d` iff `0 < d` and `norm² < d²`. -/
def normLt (p t : ℚ × ℚ) (d : ℚ) : Bool :=
  decide (0 < d ∧ dist2 p t < d * d)

/-- Componentwise `np.all(np.abs(current_position - target) < tolerance)`,
with `|x| < tol` written as `-tol < x ∧ x < tol`. -/
def nearTarget (p t : ℚ × ℚ) (tol : ℚ) : Bool :=
  decide ((-tol < p.1 - t.1 ∧ p.1 - t.1 < tol) ∧
    (-tol < p.2 - t.2 ∧ p.2 - t.2 < tol))

/-- `RandomWaypointModel.update_position`, returning the mutated model, the
remaining draw stream, and the returned position.  Branches in source
order: the paused branch (accumulate the timer, compare against
`max(0.0, normalvariate(mean, std))` — a fresh draw every call — and
unpause resetting the timer when reached, always returning the current
position); the new-target branch when `target is None` or the position is
within `tolerance` of the target componentwise (draw a new uniform target,
set `is_paused`, return the current position); otherwise move toward the
target — snapping exactly onto it, with no state change, when it is
reachable within the elapsed interval, else advancing by `fracMove`. -/
def RandomWaypointModel.update_position
    (fracMove : (ℚ × ℚ) → (ℚ × ℚ) → ℚ → ℚ × ℚ)
    (m : RandomWaypointModel) (rng : List ℚ)
    (current_position : ℚ × ℚ) (time_elapsed : ℚ) :
    RandomWaypointModel × List ℚ × (ℚ × ℚ) :=
  if m.is_paused then
    let timer := m.pause_timer + time_elapsed
    if max 0 (rng.headD 0) ≤ timer then
      ({ m with is_paused := false, pause_timer := 0 }, rng.tail,
        current_position)
    else
      ({ m with pause_timer := timer }, rng.tail, current_position)
  else
    match m.target with
    | none =>
      ({ m with target := some (rng.headD 0, rng.tail.headD 0), is_paused := true },
        rng.tail.tail, current_position)
    | some t =>
      if nearTarget current_position t m.tolerance then
        ({ m with target := some (rng.headD 0, rng.tail.headD 0), is_paused := true },
          rng.tail.tail, current_position)
      else if normLt current_position t (m.speed * time_elapsed) then
        (m, rng, t)
      else (m, rng, fracMove current_position t (m.speed * time_elapsed))

/-- Successive `update_position` calls with the given elapsed times,
threading the model, the draw stream and the position. -/
def rwpIterate (fracMove : (ℚ × ℚ) → (ℚ × ℚ) → ℚ → ℚ × ℚ) :
    List ℚ → RandomWaypointModel → List ℚ → (ℚ × ℚ) →
    RandomWaypointModel × List ℚ × (ℚ × ℚ)
  | [], m, rng, pos => (m, rng, pos)
  | dt :: rest, m, rng, pos =>
    let r := m.update_position fracMove rng pos dt
    rwpIterate fracMove rest r.1 r.2.1 r.2.2

/-- Whether the model is in the PAUSED state at the entry of every one of
the successive calls. -/
def rwpPausedThrough (fracMove : (ℚ × ℚ) → (ℚ × ℚ) → ℚ → ℚ × ℚ) :
    List ℚ → RandomWaypointModel → List ℚ → (ℚ × ℚ) → Bool
  | [], _, _, _ => true
  | dt :: rest, m, rng, pos =>
    m.is_paused &&
      rwpPausedThrough fracMove rest (m.update_position fracMove rng pos dt).1
        (m.update_position fracMove rng pos dt).2.1
        (m.update_position fracMove rng pos dt).2.2

theorem rwp_paused_step (fracMove : (ℚ × ℚ) → (ℚ × ℚ) → ℚ → ℚ × ℚ)
    (m : RandomWaypointModel) (rng : List ℚ) (pos : ℚ × ℚ) (dt : ℚ)
    (h : m.is_paused = true) :
    (m.update_position fracMove rng pos dt).2.2 = pos := by
  unfold RandomWaypointModel.update_position
  rw [if_pos h]
  by_cases hc : max 0 (rng.headD 0) ≤ m.pause_timer + dt
  · rw [if_pos hc]
  · rw [if_neg hc]

theorem rwp_paused_iterate (fracMove : (ℚ × ℚ) → (ℚ × ℚ) → ℚ → ℚ × ℚ) :
    ∀ (dts : List ℚ) (m : RandomWaypointModel) (rng : List ℚ)
      (pos : ℚ × ℚ),
      rwpPausedThrough fracMove dts m rng pos = true →
      (rwpIterate fracMove dts m rng pos).2.2 = pos := by
  intro dts
  induction dts with
  | nil => intro m rng pos _; rfl
  | cons dt0 rest ih =>
    intro m rng pos h
    simp only [rwpPausedThrough, Bool.and_eq_true] at h
    show (rwpIterate fracMove rest
      (m.update_position fracMove rng pos dt0).1
      (m.update_position fracMove rng pos dt0).2.1
      (m.update_position fracMove rng pos dt0).2.2).2.2 = pos
    rw [ih _ _ _ h.2]
    exact rwp_paused_step fracMove m rng pos dt0 h.1

/-! ## Claim C5 -/

/-- C5 counterexample: in MOVING with target `(1, 0)` from position
`(0, 0)` at speed 1 with elapsed time 2, the target is reachable within
the interval, and `update_position` returns exactly the target — but the
model does NOT transition to PAUSED: the returned state is unchanged
(`is_paused` still `false`, same target, no pause duration sampled — the
draw stream is untouched).  The claim's "transitions to PAUSED with a
pause duration freshly sampled once at that transition" is false at this
input. -/
theorem rwp_snap_stays_moving :
    RandomWaypointModel.update_position (fun p _ _ => p)
        ⟨1, (100, 100), 5, 2, some (1, 0), 0, false, 1/1000000⟩
        [9, 9] (0, 0) 2 =
      (⟨1, (100, 100), 5, 2, some (1, 0), 0, false, 1/1000000⟩,
        [9, 9], (1, 0)) ∧
    (RandomWaypointModel.update_position (fun p _ _ => p)
        ⟨1, (100, 100), 5, 2, some (1, 0), 0, false, 1/1000000⟩
        [9, 9] (0, 0) 2).1.is_paused = false := by
  decide

/-- C5 (amended): the two-state machine as the code implements it.
In PAUSED, the returned position equals the input position for this call
(and by iteration for any number of successive calls while the state stays
PAUSED), for any elapsed time; the pause ends exactly at the first call
where the accumulated timer reaches `max 0 ⟨fresh draw⟩` — the pause
duration is re-sampled at every paused call, not sampled once.  In MOVING
with a set target not yet within tolerance, if the target is reachable
within the elapsed interval the returned position is exactly the target
but the state is unchanged (still MOVING, no pause sampled); the
transition to PAUSED happens on a subsequent call, when the position is
within tolerance of the target (or no target is set): that call draws a
fresh target, sets PAUSED, and returns the position unchanged. -/
theorem rwp_state_machine_amended
    (fracMove : (ℚ × ℚ) → (ℚ × ℚ) → ℚ → ℚ × ℚ)
    (m : RandomWaypointModel) (rng : List ℚ) (pos : ℚ × ℚ) (dt : ℚ) :
    (m.is_paused = true →
      (m.update_position fracMove rng pos dt).2.2 = pos ∧
      ((m.update_position fracMove rng pos dt).1.is_paused = false ↔
        max 0 (rng.headD 0) ≤ m.pause_timer + dt)) ∧
    (∀ dts : List ℚ,
      rwpPausedThrough fracMove dts m rng pos = true →
      (rwpIterate fracMove dts m rng pos).2.2 = pos) ∧
    (∀ t : ℚ × ℚ, m.is_paused = false → m.target = some t →
      nearTarget pos t m.tolerance = false →
      normLt pos t (m.speed * dt) = true →
      m.update_position fracMove rng pos dt = (m, rng, t)) ∧
    (m.is_paused = false → m.target = none →
      m.update_position fracMove rng pos dt =
        ({ m with target := some (rng.headD 0, rng.tail.headD 0), is_paused := true },
          rng.tail.tail, pos)) ∧
    (∀ t : ℚ × ℚ, m.is_paused = false → m.target = some t →
      nearTarget pos t m.tolerance = true →
      m.update_position fracMove rng pos dt =
        ({ m with target := some (rng.headD 0, rng.tail.headD 0), is_paused := true },
          rng.tail.tail, pos)) := by
  refine ⟨?_, ?_, ?_, ?_, ?_⟩
  · intro h
    constructor
    · exact rwp_paused_step fracMove m rng pos dt h
    · unfold RandomWaypointModel.update_position
      rw [if_pos h]
      by_cases hc : max 0 (rng.headD 0) ≤ m.pause_timer + dt
      · rw [if_pos hc]
        simpa using hc
      · rw [if_neg hc]
        simpa [h] using hc
  · exact fun dts h => rwp_paused_iterate fracMove dts m rng pos h
  · intro t hmov htgt hnear hreach
    unfold RandomWaypointModel.update_position
    rw [if_neg (by simp [hmov]), htgt]
    simp only [hnear, Bool.false_eq_true, if_false, hreach, if_true]
  · intro hmov htgt
    unfold RandomWaypointModel.update_position
    rw [if_neg (by simp [hmov]), htgt]
  · intro t hmov htgt hnear
    unfold RandomWaypointModel.update_position
    rw [if_neg (by simp [hmov]), htgt]
    simp only [hnear, if_true]

/-- C5 witness: the amended state machine applied at concrete inputs — a
paused model that stays put over two calls, a moving model snapping onto
its target, a fresh model with no target, and a model standing within
tolerance of its target. -/
theorem rwp_state_machine_amended_witness :
    ((⟨1, (100, 100), 5, 2, some (3, 4), 0, true, 1/1000⟩ :
        RandomWaypointModel).is_paused = true ∧
      ((RandomWaypointModel.update_position (fun p _ _ => p)
          ⟨1, (100, 100), 5, 2, some (3, 4), 0, true, 1/1000⟩
          [5] (7, 8) 1).2.2 = (7, 8) ∧
        ((RandomWaypointModel.update_position (fun p _ _ => p)
          ⟨1, (100, 100), 5, 2, some (3, 4), 0, true, 1/1000⟩
          [5] (7, 8) 1).1.is_paused = false ↔
          max 0 (([(5 : ℚ)]).headD 0) ≤
            (⟨1, (100, 100), 5, 2, some (3, 4), 0, true, 1/1000⟩ :
              RandomWaypointModel).pause_timer + 1))) ∧
    (rwpPausedThrough (fun p _ _ => p) [1, 1]
        ⟨1, (100, 100), 5, 2, some (3, 4), 0, true, 1/1000⟩ [5, 5]
        (7, 8) = true ∧
      (rwpIterate (fun p _ _ => p) [1, 1]
        ⟨1, (100, 100), 5, 2, some (3, 4), 0, true, 1/1000⟩ [5, 5]
        (7, 8)).2.2 = (7, 8)) ∧
    (nearTarget (0, 0) (1, 0)
        (⟨1, (100, 100), 5, 2, some (1, 0), 0, false, 1/1000000⟩ :
          RandomWaypointModel).tolerance = false ∧
      normLt (0, 0) (1, 0)
        ((⟨1, (100, 100), 5, 2, some (1, 0), 0, false, 1/1000000⟩ :
          RandomWaypointModel).speed * 2) = true ∧
      RandomWaypointModel.update_position (fun p _ _ => p)
        ⟨1, (100, 100), 5, 2, some (1, 0), 0, false, 1/1000000⟩
        [9, 9] (0, 0) 2 =
      (⟨1, (100, 100), 5, 2, some (1, 0), 0, false, 1/1000000⟩,
        [9, 9], (1, 0))) ∧
    (RandomWaypointModel.update_position (fun p _ _ => p)
        ⟨1, (100, 100), 5, 2, none, 0, false, 1/1000⟩ [30, 40] (7, 8) 1 =
      (⟨1, (100, 100), 5, 2, some (30, 40), 0, true, 1/1000⟩,
        [], (7, 8))) ∧
    (nearTarget (3, 4) (3, 4)
        (⟨1, (100, 100), 5, 2, some (3, 4), 0, false, 1/1000⟩ :
          RandomWaypointModel).tolerance = true ∧
      RandomWaypointModel.update_position (fun p _ _ => p)
        ⟨1, (100, 100), 5, 2, some (3, 4), 0, false, 1/1000⟩
        [30, 40] (3, 4) 1 =
      (⟨1, (100, 100), 5, 2, some (30, 40), 0, true, 1/1000⟩,
        [], (3, 4))) :=
  ⟨⟨by decide, (rwp_state_machine_amended (fun p _ _ => p)
      ⟨1, (100, 100), 5, 2, some (3, 4), 0, true, 1/1000⟩ [5] (7, 8) 1).1
      (by decide)⟩,
   ⟨by decide, (rwp_state_machine_amended (fun p _ _ => p)
      ⟨1, (100, 100), 5, 2, some (3, 4), 0, true, 1/1000⟩ [5, 5] (7, 8) 0).2.1
      [1, 1] (by decide)⟩,
   ⟨by decide, by decide, (rwp_state_machine_amended (fun p _ _ => p)
      ⟨1, (100, 100), 5, 2, some (1, 0), 0, false, 1/1000000⟩ [9, 9]
      (0, 0) 2).2.2.1 (1, 0) (by decide) rfl (by decide) (by decide)⟩,
   (rwp_state_machine_amended (fun p _ _ => p)
      ⟨1, (100, 100), 5, 2, none, 0, false, 1/1000⟩ [30, 40] (7, 8) 1).2.2.2.1
      (by decide) rfl,
   ⟨by decide, (rwp_state_machine_amended (fun p _ _ => p)
      ⟨1, (100, 100), 5, 2, some (3, 4), 0, false, 1/1000⟩ [30, 40]
      (3, 4) 1).2.2.2.2 (3, 4) (by decide) rfl (by decide)⟩⟩

/-! # UE attachment (src/oransim/core/mobility.py: `UE.attach_to_du`,
`UE.detach_from_du`; `O_DU.connected_ues` from src/oransim/core/nodes.py)

UE objects are represented by their unique `ue_id` and O-DU objects by
their unique `du_id`; `connected_ues` stores UE ids (object identity =
id under the uniqueness hypotheses).  `list.remove(self)` removes the
first occurrence (`List.erase`); under the claimed invariant the element
is present, so the Python `ValueError` path is unreachable. -/

structure O_DU where
  du_id : String
  connected_ues : List String
deriving Repr, DecidableEq

structure UEState where
  ue_id : String
  o_du : Option String
deriving Repr, DecidableEq

structure MobilityWorld where
  ues : List UEState
  dus : List O_DU
deriving Repr, DecidableEq

/-- `UE.detach_from_du`: when the UE is attached, remove it from its
O-DU's `connected_ues` and reset `self.o_du = None`; otherwise no-op. -/
def UE.detach_from_du (w : MobilityWorld) (uid : String) : MobilityWorld :=
  match w.ues.find? (fun u => u.ue_id == uid) with
  | none => w
  | some u =>
    match u.o_du with
    | none => w
    | some d =>
      { ues := w.ues.map (fun v =>
          if v.ue_id == uid then { v with o_du := none } else v),
        dus := w.dus.map (fun du =>
          if du.du_id == d then
            { du with connected_ues := du.connected_ues.erase uid }
          else du) }

/-- `UE.attach_to_du`: detach from the current O-DU when attached, then set
`self.o_du = o_du` and append the UE to `o_du.connected_ues`. -/
def UE.attach_to_du (w : MobilityWorld) (uid did : String) : MobilityWorld :=
  match w.ues.find? (fun u => u.ue_id == uid) with
  | none => w
  | some u =>
    let w1 := if u.o_du.isSome then UE.detach_from_du w uid else w
    { ues := w1.ues.map (fun v =>
        if v.ue_id == uid then { v with o_du := some did } else v),
      dus := w1.dus.map (fun du =>
        if du.du_id == did then
          { du with connected_ues := du.connected_ues ++ [uid] }
        else du) }

/-- One attachment-interface call. -/
inductive MobOp where
  | attach (uid did : String)
  | detach (uid : String)
deriving Repr, DecidableEq

def applyMobOp (w : MobilityWorld) : MobOp → MobilityWorld
  | .attach uid did => UE.attach_to_du w uid did
  | .detach uid => UE.detach_from_du w uid

def applyMobOps (w : MobilityWorld) (ops : List MobOp) : MobilityWorld :=
  ops.foldl applyMobOp w

/-- The claimed invariant: every UE appears in an O-DU's `connected_ues`
exactly once if that O-DU is the one recorded in `ue.o_du`, and zero times
in every other O-DU's list (in particular a UE with `o_du = None` is in no
list). -/
def UniqueAttachment (w : MobilityWorld) : Prop :=
  ∀ u ∈ w.ues, ∀ du ∈ w.dus,
    du.connected_ues.count u.ue_id =
      (if u.o_du = some du.du_id then 1 else 0)

/-- Every recorded attachment points at an O-DU of the world. -/
def AttachedToRegistered (w : MobilityWorld) : Prop :=
  ∀ u ∈ w.ues, ∀ d ∈ u.o_du.toList, d ∈ w.dus.map O_DU.du_id

theorem detach_ids (w : MobilityWorld) (uid : String) :
    (UE.detach_from_du w uid).ues.map UEState.ue_id =
      w.ues.map UEState.ue_id ∧
    (UE.detach_from_du w uid).dus.map O_DU.du_id =
      w.dus.map O_DU.du_id := by
  cases hf : w.ues.find? (fun u => u.ue_id == uid) with
  | none => simp [UE.detach_from_du, hf]
  | some u =>
    cases ho : u.o_du with
    | none => simp [UE.detach_from_du, hf, ho]
    | some d =>
      simp only [UE.detach_from_du, hf, ho]
      constructor
      · rw [List.map_map]
        apply List.map_congr_left
        intro v _
        by_cases hv : (v.ue_id == uid) = true <;>
          simp [Function.comp, hv]
      · rw [List.map_map]
        apply List.map_congr_left
        intro du _
        by_cases hd : (du.du_id == d) = true <;>
          simp [Function.comp, hd]

theorem attach_ids (w : MobilityWorld) (uid did : String) :
    (UE.attach_to_du w uid did).ues.map UEState.ue_id =
      w.ues.map UEState.ue_id ∧
    (UE.attach_to_du w uid did).dus.map O_DU.du_id =
      w.dus.map O_DU.du_id := by
  have hstep : ∀ w1 : MobilityWorld,
      w1.ues.map UEState.ue_id = w.ues.map UEState.ue_id →
      w1.dus.map O_DU.du_id = w.dus.map O_DU.du_id →
      ((w1.ues.map (fun v =>
          if v.ue_id == uid then { v with o_du := some did } else v)).map
            UEState.ue_id = w.ues.map UEState.ue_id ∧
        (w1.dus.map (fun du =>
          if du.du_id == did then
            { du with connected_ues := du.connected_ues ++ [uid] }
          else du)).map O_DU.du_id = w.dus.map O_DU.du_id) := by
    intro w1 h1 h2
    constructor
    · rw [List.map_map, ← h1]
      apply List.map_congr_left
      intro v _
      by_cases hv : (v.ue_id == uid) = true <;>
        simp [Function.comp, hv]
    · rw [List.map_map, ← h2]
      apply List.map_congr_left
      intro du _
      by_cases hd : (du.du_id == did) = true <;>
        simp [Function.comp, hd]
  cases hf : w.ues.find? (fun u => u.ue_id == uid) with
  | none => simp [UE.attach_to_du, hf]
  | some u =>
    by_cases hsome : u.o_du.isSome
    · simp only [UE.attach_to_du, hf, hsome, if_true]
      exact hstep _ (detach_ids w uid).1 (detach_ids w uid).2
    · simp only [UE.attach_to_du, hf, hsome, Bool.false_eq_true, if_false]
      exact hstep w rfl rfl

theorem detach_uid_none (w : MobilityWorld) (uid : String)
    (hue : (w.ues.map UEState.ue_id).Nodup) :
    ∀ v ∈ (UE.detach_from_du w uid).ues, v.ue_id = uid → v.o_du = none := by
  cases hf : w.ues.find? (fun u => u.ue_id == uid) with
  | none =>
    intro v hv hvid
    exfalso
    have := List.find?_eq_none.1 hf v (by simpa [UE.detach_from_du, hf] using hv)
    simp [hvid] at this
  | some u =>
    have hu_mem : u ∈ w.ues := List.mem_of_find?_eq_some hf
    have hu_id : u.ue_id = uid := by simpa using List.find?_some hf
    cases ho : u.o_du with
    | none =>
      intro v hv hvid
      have hv' : v ∈ w.ues := by simpa [UE.detach_from_du, hf, ho] using hv
      have : v = u := List.inj_on_of_nodup_map hue hv' hu_mem
        (by rw [hvid, hu_id])
      rw [this, ho]
    | some d =>
      intro v hv hvid
      simp only [UE.detach_from_du, hf, ho, List.mem_map] at hv
      obtain ⟨v0, _, rfl⟩ := hv
      by_cases h0 : (v0.ue_id == uid) = true
      · simp [h0]
      · rw [if_neg h0] at hvid ⊢
        exact absurd hvid (by simpa using h0)

theorem detach_preserves (w : MobilityWorld) (uid : String)
    (hue : (w.ues.map UEState.ue_id).Nodup)
    (hinv : UniqueAttachment w) :
    UniqueAttachment (UE.detach_from_du w uid) := by
  cases hf : w.ues.find? (fun u => u.ue_id == uid) with
  | none => simpa [UE.detach_from_du, hf] using hinv
  | some u =>
    cases ho : u.o_du with
    | none => simpa [UE.detach_from_du, hf, ho] using hinv
    | some d =>
      have hu_mem : u ∈ w.ues := List.mem_of_find?_eq_some hf
      have hu_id : u.ue_id = uid := by simpa using List.find?_some hf
      intro v' hv' du' hdu'
      simp only [UE.detach_from_du, hf, ho, List.mem_map] at hv' hdu'
      obtain ⟨v, hv, rfl⟩ := hv'
      obtain ⟨du, hdu_, rfl⟩ := hdu'
      have h1 := hinv v hv du hdu_
      by_cases hvid : (v.ue_id == uid) = true
      · have hvid' : v.ue_id = uid := by simpa using hvid
        have hveq : v = u := List.inj_on_of_nodup_map hue hv hu_mem
          (by rw [hvid', hu_id])
        rw [if_pos hvid]
        by_cases hdid : (du.du_id == d) = true
        · have hdid' : du.du_id = d := by simpa using hdid
          have hcond : v.o_du = some du.du_id := by rw [hveq, ho, hdid']
          have hcount : du.connected_ues.count v.ue_id = 1 := by
            rw [h1, if_pos hcond]
          rw [if_pos hdid]
          simp only []
          rw [hvid'] at hcount ⊢
          rw [List.count_erase_self, hcount]
          simp
        · have hdid' : ¬ du.du_id = d := by simpa using hdid
          rw [if_neg hdid]
          simp only []
          rw [h1, hveq, ho]
          have h2 : ¬ d = du.du_id := fun hh => hdid' hh.symm
          rw [if_neg (by simp [h2]), if_neg (by simp :
            ¬ (none : Option String) = some du.du_id)]
      · rw [if_neg hvid]
        by_cases hdid : (du.du_id == d) = true
        · rw [if_pos hdid]
          simp only []
          rw [List.count_erase_of_ne (by simpa using hvid), h1]
        · rw [if_neg hdid]
          exact h1

instance decUniqueAttachment (w : MobilityWorld) :
    Decidable (UniqueAttachment w) :=
  inferInstanceAs (Decidable (∀ u ∈ w.ues, ∀ du ∈ w.dus,
    du.connected_ues.count u.ue_id = (if u.o_du = some du.du_id then 1 else 0)))

instance decAttachedToRegistered (w : MobilityWorld) :
    Decidable (AttachedToRegistered w) :=
  inferInstanceAs (Decidable (∀ u ∈ w.ues, ∀ d ∈ u.o_du.toList,
    d ∈ w.dus.map O_DU.du_id))

theorem attach_preserves (w : MobilityWorld) (uid did : String)
    (hue : (w.ues.map UEState.ue_id).Nodup)
    (hinv : UniqueAttachment w) :
    UniqueAttachment (UE.attach_to_du w uid did) := by
  cases hf : w.ues.find? (fun u => u.ue_id == uid) with
  | none => simpa [UE.attach_to_du, hf] using hinv
  | some u =>
    have hu_mem : u ∈ w.ues := List.mem_of_find?_eq_some hf
    have hu_id : u.ue_id = uid := by simpa using List.find?_some hf
    have key : ∀ w1 : MobilityWorld,
        UniqueAttachment w1 →
        (∀ v ∈ w1.ues, v.ue_id = uid → v.o_du = none) →
        UniqueAttachment
          { ues := w1.ues.map (fun v =>
              if v.ue_id == uid then { v with o_du := some did } else v),
            dus := w1.dus.map (fun du =>
              if du.du_id == did then
                { du with connected_ues := du.connected_ues ++ [uid] }
              else du) } := by
      intro w1 hinv1 hnone1 v' hv' du' hdu'
      simp only [List.mem_map] at hv' hdu'
      obtain ⟨v, hv, rfl⟩ := hv'
      obtain ⟨du, hdu_, rfl⟩ := hdu'
      have h1 := hinv1 v hv du hdu_
      by_cases hvid : (v.ue_id == uid) = true
      · have hvid' : v.ue_id = uid := by simpa using hvid
        have hvnone : v.o_du = none := hnone1 v hv hvid'
        rw [if_pos hvid]
        by_cases hdid : (du.du_id == did) = true
        · have hdid' : du.du_id = did := by simpa using hdid
          rw [if_pos hdid]
          simp only []
          rw [List.count_append, h1, hvnone,
            if_neg (by simp : ¬ (none : Option String) = some du.du_id)]
          simp [hvid', hdid']
        · have hdid' : ¬ du.du_id = did := by simpa using hdid
          rw [if_neg hdid]
          simp only []
          rw [h1, hvnone]
          have h2 : ¬ (some did = some du.du_id) := by
            intro hh
            exact hdid' (by simpa using hh.symm)
          rw [if_neg (by simp : ¬ (none : Option String) = some du.du_id),
            if_neg h2]
      · have hvid' : ¬ v.ue_id = uid := by simpa using hvid
        rw [if_neg hvid]
        by_cases hdid : (du.du_id == did) = true
        · rw [if_pos hdid]
          simp only []
          rw [List.count_append, h1]
          have hz : List.count v.ue_id [uid] = 0 := by simp [hvid']
          rw [hz, Nat.add_zero]
        · rw [if_neg hdid]
          exact h1
    by_cases hsome : u.o_du.isSome
    · have hue1 : ((UE.detach_from_du w uid).ues.map UEState.ue_id).Nodup := by
        rw [(detach_ids w uid).1]; exact hue
      have hw : UE.attach_to_du w uid did =
          { ues := (UE.detach_from_du w uid).ues.map (fun v =>
              if v.ue_id == uid then { v with o_du := some did } else v),
            dus := (UE.detach_from_du w uid).dus.map (fun du =>
              if du.du_id == did then
                { du with connected_ues := du.connected_ues ++ [uid] }
              else du) } := by
        simp only [UE.attach_to_du, hf, hsome, if_true]
      rw [hw]
      exact key (UE.detach_from_du w uid)
        (detach_preserves w uid hue hinv) (detach_uid_none w uid hue)
    · have hnone0 : ∀ v ∈ w.ues, v.ue_id = uid → v.o_du = none := by
        intro v hv hvid
        have hveq : v = u := List.inj_on_of_nodup_map hue hv hu_mem
          (by rw [hvid, hu_id])
        rw [hveq]
        exact Option.not_isSome_iff_eq_none.1 (by simpa using hsome)
      have hw : UE.attach_to_du w uid did =
          { ues := w.ues.map (fun v =>
              if v.ue_id == uid then { v with o_du := some did } else v),
            dus := w.dus.map (fun du =>
              if du.du_id == did then
                { du with connected_ues := du.connected_ues ++ [uid] }
              else du) } := by
        simp only [UE.attach_to_du, hf, hsome, Bool.false_eq_true, if_false]
      rw [hw]
      exact key w hinv hnone0

theorem detach_att (w : MobilityWorld) (uid : String)
    (hatt : AttachedToRegistered w) :
    AttachedToRegistered (UE.detach_from_du w uid) := by
  intro v' hv' e he
  rw [(detach_ids w uid).2]
  cases hf : w.ues.find? (fun u => u.ue_id == uid) with
  | none =>
    exact hatt v' (by simpa [UE.detach_from_du, hf] using hv') e he
  | some u =>
    cases ho : u.o_du with
    | none =>
      exact hatt v' (by simpa [UE.detach_from_du, hf, ho] using hv') e he
    | some d =>
      simp only [UE.detach_from_du, hf, ho, List.mem_map] at hv'
      obtain ⟨v, hv, rfl⟩ := hv'
      by_cases hvid : (v.ue_id == uid) = true
      · rw [if_pos hvid] at he
        simp at he
      · rw [if_neg hvid] at he
        exact hatt v hv e he

theorem attach_att (w : MobilityWorld) (uid did : String)
    (hatt : AttachedToRegistered w)
    (hdid : did ∈ w.dus.map O_DU.du_id) :
    AttachedToRegistered (UE.attach_to_du w uid did) := by
  intro v' hv' e he
  rw [(attach_ids w uid did).2]
  cases hf : w.ues.find? (fun u => u.ue_id == uid) with
  | none =>
    exact hatt v' (by simpa [UE.attach_to_du, hf] using hv') e he
  | some u =>
    by_cases hsome : u.o_du.isSome
    · have hv1 : v' ∈ (UE.detach_from_du w uid).ues.map (fun v =>
          if v.ue_id == uid then { v with o_du := some did } else v) := by
        simpa [UE.attach_to_du, hf, hsome] using hv'
      simp only [List.mem_map] at hv1
      obtain ⟨v, hv, rfl⟩ := hv1
      by_cases hvid : (v.ue_id == uid) = true
      · rw [if_pos hvid] at he
        have : e = did := by simpa using he
        rw [this]
        exact hdid
      · rw [if_neg hvid] at he
        have := detach_att w uid hatt v hv e he
        rwa [(detach_ids w uid).2] at this
    · have hv1 : v' ∈ w.ues.map (fun v =>
          if v.ue_id == uid then { v with o_du := some did } else v) := by
        simpa [UE.attach_to_du, hf, hsome] using hv'
      simp only [List.mem_map] at hv1
      obtain ⟨v, hv, rfl⟩ := hv1
      by_cases hvid : (v.ue_id == uid) = true
      · rw [if_pos hvid] at he
        have : e = did := by simpa using he
        rw [this]
        exact hdid
      · rw [if_neg hvid] at he
        exact hatt v hv e he

theorem applyMobOps_preserves (ops : List MobOp) :
    ∀ w : MobilityWorld,
    (w.ues.map UEState.ue_id).Nodup →
    UniqueAttachment w →
    AttachedToRegistered w →
    (∀ uid did, MobOp.attach uid did ∈ ops → did ∈ w.dus.map O_DU.du_id) →
    UniqueAttachment (applyMobOps w ops) ∧
      AttachedToRegistered (applyMobOps w ops) := by
  induction ops with
  | nil =>
    intro w _ hinv hatt _
    exact ⟨hinv, hatt⟩
  | cons op rest ih =>
    intro w hue hinv hatt hops
    have hids : (applyMobOp w op).ues.map UEState.ue_id =
        w.ues.map UEState.ue_id ∧
        (applyMobOp w op).dus.map O_DU.du_id = w.dus.map O_DU.du_id := by
      cases op with
      | attach uid did => exact attach_ids w uid did
      | detach uid => exact detach_ids w uid
    have hue' : ((applyMobOp w op).ues.map UEState.ue_id).Nodup := by
      rw [hids.1]; exact hue
    have hinv' : UniqueAttachment (applyMobOp w op) := by
      cases op with
      | attach uid did => exact attach_preserves w uid did hue hinv
      | detach uid => exact detach_preserves w uid hue hinv
    have hatt' : AttachedToRegistered (applyMobOp w op) := by
      cases op with
      | attach uid did =>
        exact attach_att w uid did hatt (hops uid did (List.mem_cons_self _ _))
      | detach uid => exact detach_att w uid hatt
    have hops' : ∀ uid did, MobOp.attach uid did ∈ rest →
        did ∈ (applyMobOp w op).dus.map O_DU.du_id := by
      intro uid did hmem
      rw [hids.2]
      exact hops uid did (List.mem_cons_of_mem _ hmem)
    have hstep : applyMobOps w (op :: rest) =
        applyMobOps (applyMobOp w op) rest := rfl
    rw [hstep]
    exact ih (applyMobOp w op) hue' hinv' hatt' hops'

/-- **C10**: starting from any world whose UE ids are distinct, in which every
UE appears in an O-DU's `connected_ues` exactly once when that O-DU is the one
recorded in `ue.o_du` and in no other list (a UE with `o_du = None` is in no
list), and in which every recorded attachment points at an O-DU of the world,
any sequence of `attach_to_du` / `detach_from_du` calls whose attach targets
are O-DUs of the world preserves all of this; in particular afterwards
`ue.o_du = some d` holds exactly for the O-DUs `d` whose `connected_ues`
contains the UE, so each UE is a member of at most one O-DU's list, namely the
one named by `ue.o_du`. -/
theorem ue_attachment_invariant (w : MobilityWorld) (ops : List MobOp)
    (hue : (w.ues.map UEState.ue_id).Nodup)
    (hinv : UniqueAttachment w)
    (hatt : AttachedToRegistered w)
    (hops : ∀ uid did, MobOp.attach uid did ∈ ops →
      did ∈ w.dus.map O_DU.du_id) :
    UniqueAttachment (applyMobOps w ops) ∧
      AttachedToRegistered (applyMobOps w ops) ∧
      ∀ u ∈ (applyMobOps w ops).ues, ∀ du ∈ (applyMobOps w ops).dus,
        (u.ue_id ∈ du.connected_ues ↔ u.o_du = some du.du_id) := by
  obtain ⟨h1, h2⟩ := applyMobOps_preserves ops w hue hinv hatt hops
  refine ⟨h1, h2, ?_⟩
  intro u hu du hdu
  have h := h1 u hu du hdu
  constructor
  · intro hmem
    by_contra hne
    rw [if_neg hne] at h
    exact (List.count_eq_zero.1 h) hmem
  · intro heq
    rw [if_pos heq] at h
    by_contra hmem
    rw [List.count_eq_zero.2 hmem] at h
    exact one_ne_zero h.symm

theorem ue_attachment_invariant_witness :
    ((([⟨"ue1", some "du1"⟩, ⟨"ue2", none⟩] : List UEState).map
        UEState.ue_id).Nodup ∧
      UniqueAttachment ⟨[⟨"ue1", some "du1"⟩, ⟨"ue2", none⟩],
        [⟨"du1", ["ue1"]⟩, ⟨"du2", []⟩]⟩ ∧
      AttachedToRegistered ⟨[⟨"ue1", some "du1"⟩, ⟨"ue2", none⟩],
        [⟨"du1", ["ue1"]⟩, ⟨"du2", []⟩]⟩) ∧
    UniqueAttachment (applyMobOps
      ⟨[⟨"ue1", some "du1"⟩, ⟨"ue2", none⟩],
        [⟨"du1", ["ue1"]⟩, ⟨"du2", []⟩]⟩
      [MobOp.attach "ue1" "du2", MobOp.attach "ue2" "du1",
        MobOp.detach "ue1"]) ∧
    AttachedToRegistered (applyMobOps
      ⟨[⟨"ue1", some "du1"⟩, ⟨"ue2", none⟩],
        [⟨"du1", ["ue1"]⟩, ⟨"du2", []⟩]⟩
      [MobOp.attach "ue1" "du2", MobOp.attach "ue2" "du1",
        MobOp.detach "ue1"]) := by
  have hops : ∀ uid did, MobOp.attach uid did ∈
      [MobOp.attach "ue1" "du2", MobOp.attach "ue2" "du1",
        MobOp.detach "ue1"] →
      did ∈ ([⟨"du1", ["ue1"]⟩, ⟨"du2", []⟩] : List O_DU).map O_DU.du_id := by
    intro uid did hmem
    simp only [List.mem_cons, List.not_mem_nil, or_false] at hmem
    rcases hmem with h | h | h
    · injection h with h1 h2
      subst h2
      decide
    · injection h with h1 h2
      subst h2
      decide
    · exact absurd h (by simp)
  have hmain := ue_attachment_invariant
    ⟨[⟨"ue1", some "du1"⟩, ⟨"ue2", none⟩],
      [⟨"du1", ["ue1"]⟩, ⟨"du2", []⟩]⟩
    [MobOp.attach "ue1" "du2", MobOp.attach "ue2" "du1", MobOp.detach "ue1"]
    (by decide) (by decide) (by decide) hops
  exact ⟨⟨by decide, by decide, by decide⟩, hmain.1, hmain.2.1⟩
